import Mathlib

/-!
Verification of the diff-repair pipeline in `autopr/validators.py` against its
natural-language specification.

The Python source is shallowly embedded: a diff is a list of lines, a line is a
`List Char`, Python's partial operations (list indexing, `re.match(...).group`,
`len(None)`) are embedded in `Except PyErr`, and Python's negative-index
semantics are modelled explicitly.  All definitions are computable and
structurally recursive (index loops carry an explicit fuel equal to the list
length), so concrete runs evaluate inside the kernel.
-/

set_option maxHeartbeats 1000000

/-- A single diff or file line: Python `str` with no newline, as a list of characters. -/
abbrev Line : Type := List Char

/-- Convert a string literal to a `Line`. -/
def chars (s : String) : Line := s.data

/-- Python runtime errors that the embedded code can raise. -/
inductive PyErr : Type
  | indexError
  | typeError
  | attributeError
deriving DecidableEq, Repr

instance {ε α : Type} [DecidableEq ε] [DecidableEq α] : DecidableEq (Except ε α) :=
  fun a b =>
    match a, b with
    | .ok x, .ok y =>
      if h : x = y then .isTrue (by rw [h]) else .isFalse (fun hc => h (by injection hc))
    | .error x, .error y =>
      if h : x = y then .isTrue (by rw [h]) else .isFalse (fun hc => h (by injection hc))
    | .ok _, .error _ => .isFalse (fun hc => Except.noConfusion hc)
    | .error _, .ok _ => .isFalse (fun hc => Except.noConfusion hc)

/-- Python `s.startswith(pat)`. -/
def startsW (pat l : Line) : Bool := List.isPrefixOf pat l

/-- Python whitespace for `str.lstrip()` (ASCII part). -/
def isPySpace (c : Char) : Bool :=
  c = ' ' || c = '\t' || c = '\n' || c = '\r' || c = '\x0b' || c = '\x0c'

/-- Python `s.lstrip()`. -/
def lstrip (l : Line) : Line := l.dropWhile isPySpace

/-- Python `l[k]` for `int` index `k`: negative indices wrap once, anything
out of range raises `IndexError`. -/
def pyGet {α : Type} (l : List α) (k : Int) : Except PyErr α :=
  if 0 ≤ k then
    if h : k.toNat < l.length then .ok (l.get ⟨k.toNat, h⟩) else .error .indexError
  else
    let j := k + l.length
    if 0 ≤ j then
      if h : j.toNat < l.length then .ok (l.get ⟨j.toNat, h⟩) else .error .indexError
    else .error .indexError

/-- Python `l.insert(n, a)` (indices in this file are always in range). -/
def listInsert {α : Type} : Nat → α → List α → List α
  | 0, a, l => a :: l
  | _ + 1, a, [] => [a]
  | n + 1, a, x :: xs => x :: listInsert n a xs

/-- Strip an expected leading segment, returning the remainder. -/
def dropPre? : Line → Line → Option Line
  | [], l => some l
  | _ :: _, [] => none
  | p :: ps, c :: cs => if p = c then dropPre? ps cs else none

/-- Numeric value of a digit character. -/
def digitVal (c : Char) : Nat := c.toNat - 48

/-- Value of a digit string. -/
def digitsVal (ds : Line) : Nat := ds.foldl (fun a c => 10 * a + digitVal c) 0

/-- Greedy `\d+`: one or more leading digits plus the rest of the line. -/
def takeDigits (l : Line) : Option (Nat × Line) :=
  let ds := l.takeWhile Char.isDigit
  if ds.isEmpty then none else some (digitsVal ds, l.drop ds.length)

/-- The optional `(?:,\d+)?` group of the hunk-header pattern. -/
def skipCommaDigits (l : Line) : Line :=
  match l with
  | ',' :: rest =>
    let ds := rest.takeWhile Char.isDigit
    if ds.isEmpty then l else rest.drop ds.length
  | _ => l

/-- `re.match(r"@@ -(\d+)(?:,\d+)? \+(\d+)(?:,\d+)? @@", line)`, returning
groups 1 and 2 as numbers (`None` becomes `none`). -/
def parseHunkHeader (l : Line) : Option (Nat × Nat) := do
  let r1 ← dropPre? (chars "@@ -") l
  let (n1, r2) ← takeDigits r1
  let r3 := skipCommaDigits r2
  let r4 ← dropPre? (chars " +") r3
  let (n2, r5) ← takeDigits r4
  let r6 := skipCommaDigits r5
  let _ ← dropPre? (chars " @@") r6
  pure (n1, n2)

/-- `re.match(r"--- (.+)", line).group(1)` (`none` when the regex fails). -/
def parseDashName (l : Line) : Option Line :=
  match dropPre? (chars "--- ") l with
  | some (c :: rest) => some (c :: rest)
  | _ => none

/-- `re.match(r"\+\+\+ (.+)", line).group(1)` (`none` when the regex fails). -/
def parsePlusName (l : Line) : Option Line :=
  match dropPre? (chars "+++ ") l with
  | some (c :: rest) => some (c :: rest)
  | _ => none

/-- Decimal digits of a natural number (fueled so that it reduces in the kernel). -/
def natCharsAux : Nat → Nat → Line
  | 0, _ => []
  | fuel + 1, n =>
    if n < 10 then [Nat.digitChar n] else natCharsAux fuel (n / 10) ++ [Nat.digitChar (n % 10)]

/-- Python `str(n)` for a nonnegative integer. -/
def natChars (n : Nat) : Line := natCharsAux (n + 1) n

/-- Python `str(i)` for an `int`. -/
def intChars (i : Int) : Line :=
  if i < 0 then '-' :: natChars i.natAbs else natChars i.toNat

/-- Python `"a\nb".splitlines()` (newline and carriage-return terminators). -/
def pySplitlines : List Char → List Line
  | [] => []
  | '\r' :: '\n' :: rest => [] :: pySplitlines rest
  | '\r' :: rest => [] :: pySplitlines rest
  | '\n' :: rest => [] :: pySplitlines rest
  | c :: rest =>
    match pySplitlines rest with
    | [] => [[c]]
    | l :: ls => (c :: l) :: ls

/-- Python `s.replace(pat, rep)` on non-empty `pat`, with explicit fuel. -/
def pyReplaceAux (pat rep : List Char) : Nat → List Char → List Char
  | 0, s => s
  | fuel + 1, s =>
    match s with
    | [] => []
    | c :: rest =>
      match dropPre? pat s with
      | some tail => rep ++ pyReplaceAux pat rep fuel tail
      | none => c :: pyReplaceAux pat rep fuel rest

/-- Python `s.replace(pat, rep)` (all non-overlapping occurrences, left to right). -/
def pyReplace (s pat rep : List Char) : List Char :=
  if pat = [] then rep ++ s.flatMap (fun c => [c] ++ rep) else pyReplaceAux pat rep s.length s

/-- A git tree entry: a file (blob) with its raw byte content, or a directory. -/
inductive GEntry : Type
  | blob (raw : List Char)
  | dir
deriving DecidableEq, Repr

/-- The repository tree: an association list from repository-relative path to entry,
in `tree.traverse()` order. -/
abbrev GitTree : Type := List (Line × GEntry)

/-- `tree / path`: `none` models the `KeyError` raised for an unknown path. -/
def lookupTree (t : GitTree) (path : Line) : Option GEntry :=
  (t.find? (fun e => e.1 = path)).map (·.2)

/-!  ## `adjust_line_indentation` (validators.py lines 57-61)  -/

/-- `adjust_line_indentation(line, indentation_offset)`: prepend spaces for a
nonnegative offset, else Python slice `line[-offset:]`. -/
def adjustLineIndentation (line : Line) (indentationOffset : Int) : Line :=
  if 0 ≤ indentationOffset then
    List.replicate indentationOffset.toNat ' ' ++ line
  else
    line.drop (-indentationOffset).toNat

/-!  ## `fix_unidiff_line_counts` (validators.py lines 15-54)  -/

/-- The loop-exit test of the counting loop: position `j` starts the next hunk
(a `---`/`+++`/`@@` triple fitting before the end, or an `@@` line). -/
def hunkBoundary (lines : List Line) (j : Nat) : Bool :=
  (decide (j + 2 < lines.length) && startsW (chars "---") (lines.getD j []) &&
      startsW (chars "+++") (lines.getD (j + 1) []) &&
      startsW (chars "@@") (lines.getD (j + 2) []))
    || startsW (chars "@@") (lines.getD j [])

/-- The `while j < len(lines)` tally loop of `fix_unidiff_line_counts`. -/
def countLoop (lines : List Line) : Nat → Nat → Nat → Nat → Nat × Nat
  | 0, _, x, y => (x, y)
  | fuel + 1, j, x, y =>
    if j < lines.length then
      if hunkBoundary lines j then (x, y)
      else
        let lj := lines.getD j []
        if startsW (chars "-") lj then countLoop lines fuel (j + 1) (x + 1) y
        else if startsW (chars "+") lj then countLoop lines fuel (j + 1) x (y + 1)
        else if startsW (chars "\\") lj then countLoop lines fuel (j + 1) x y
        else countLoop lines fuel (j + 1) (x + 1) (y + 1)
    else (x, y)

/-- `f"@@ -{sx},{xc} +{sy},{yc} @@"`. -/
def mkHeaderLine (sx : Nat) (xc : Int) (sy : Nat) (yc : Int) : Line :=
  chars "@@ -" ++ natChars sx ++ [','] ++ intChars xc ++ chars " +" ++ natChars sy ++ [','] ++
    intChars yc ++ chars " @@"

/-- Body of `fix_unidiff_line_counts`: one output line per input line, with each
`@@` line rebuilt from the tally (or `AttributeError` when its regex fails). -/
def fulcAux (lines : List Line) : Nat → Nat → Except PyErr (List Line)
  | 0, _ => .ok []
  | fuel + 1, i =>
    if h : i < lines.length then
      let line := lines.get ⟨i, h⟩
      if startsW (chars "@@") line then
        match parseHunkHeader line with
        | none => .error .attributeError
        | some (sx, sy) =>
          let xy := countLoop lines lines.length (i + 1) 0 0
          match fulcAux lines fuel (i + 1) with
          | .error e => .error e
          | .ok rest => .ok (mkHeaderLine sx ((xy.1 : Int) - 1) sy ((xy.2 : Int) - 1) :: rest)
      else
        match fulcAux lines fuel (i + 1) with
        | .error e => .error e
        | .ok rest => .ok (line :: rest)
    else .ok []

/-- `fix_unidiff_line_counts(lines)`. -/
def fixUnidiffLineCounts (lines : List Line) : Except PyErr (List Line) :=
  fulcAux lines lines.length 0

/-- First hunk-body end at or after `j` (fueled variant). -/
def hunkEndFuel (lines : List Line) : Nat → Nat → Nat
  | 0, j => j
  | fuel + 1, j =>
    if j < lines.length then
      if hunkBoundary lines j then j else hunkEndFuel lines fuel (j + 1)
    else j

/-- Declarative hunk end: first position `≥ j` that is a hunk boundary, or the
end of the list. -/
def hunkEnd (lines : List Line) (j : Nat) : Nat := hunkEndFuel lines (lines.length + 1) j

/-- The body of the hunk whose `@@` header sits at index `i`: the lines strictly
between the header and the next boundary (or the end of the text). -/
def hunkBodySlice (lines : List Line) (i : Nat) : List Line :=
  (lines.drop (i + 1)).take (hunkEnd lines (i + 1) - (i + 1))

/-- Counts toward the old side: a `-` line, or any retained line that is neither
`+` nor `\`. -/
def isOldCounted (l : Line) : Bool :=
  startsW (chars "-") l || (!startsW (chars "+") l && !startsW (chars "\\") l)

/-- Counts toward the new side: a `+` line, or any retained line that is neither
`-` nor `\`. -/
def isNewCounted (l : Line) : Bool :=
  startsW (chars "+") l || (!startsW (chars "-") l && !startsW (chars "\\") l)

/-- Number of old-side body lines. -/
def oldCountOf (body : List Line) : Nat := (body.filter isOldCounted).length

/-- Number of new-side body lines. -/
def newCountOf (body : List Line) : Nat := (body.filter isNewCounted).length

/-!  ## `remove_hallucinations` (validators.py lines 64-154)  -/

/-- The mutable state of the `remove_hallucinations` loop (spec §3 RepairCursor). -/
structure RHState : Type where
  cleaned : List Line
  content : Option (List Line)
  lineNo : Int
  semaphore : Nat
  indentOffset : Int
  isNewFile : Bool
deriving DecidableEq, Repr

/-- Initial state of the pass. -/
def rhInit : RHState :=
  { cleaned := [], content := none, lineNo := 0, semaphore := 0, indentOffset := 0,
    isNewFile := false }

/-- Which branch of the `for` body a line took. -/
inductive RHTag : Type
  | fileHeader
  | hunkHeader
  | plusHeader
  | removedSkippedNew
  | removedSkippedEof
  | removedEmit
  | addedLine
  | ctxSkippedNew
  | ctxSkippedEof
  | ctxMatched
  | ctxSearchHit
  | ctxSearchMiss
  | ctxDropped
  | passThrough
deriving DecidableEq, Repr

/-- Evaluation (with short-circuiting and possible `IndexError`) of
`line.startswith("---") and lines[i+1].startswith("+++") and lines[i+2].startswith("@@")`. -/
def rhTripleCheck (lines : List Line) (i : Nat) (line : Line) : Except PyErr Bool :=
  if startsW (chars "---") line then
    match pyGet lines ((i : Int) + 1) with
    | .error e => .error e
    | .ok l1 =>
      if startsW (chars "+++") l1 then
        match pyGet lines ((i : Int) + 2) with
        | .error e => .error e
        | .ok l2 => .ok (startsW (chars "@@") l2)
      else .ok false
  else .ok false

/-- `len(None)` guard: reading `current_file_content` when it is `None`
raises a `TypeError`. -/
def ofContent (c : Option (List Line)) : Except PyErr (List Line) :=
  match c with
  | none => .error .typeError
  | some v => .ok v

/-- The bounded local search `for offset in range(-3, 4)` over the file content;
returns the first matching position and its line.  Note the source reads
`current_file_content[check_line_number]` before the bounds test, so the read
itself can raise `IndexError`. -/
def rhSearchGo (c : List Line) (cur : Int) (line : Line) :
    List Int → Except PyErr (Option (Int × Line))
  | [] => .ok none
  | off :: rest =>
    let check := cur + off
    match pyGet c check with
    | .error e => .error e
    | .ok cfl =>
      if ¬(0 ≤ check ∧ check < (c.length : Int)) then rhSearchGo c cur line rest
      else if lstrip line = lstrip cfl then .ok (some (check, cfl))
      else rhSearchGo c cur line rest

/-- The search loop with its fixed window `search_range = 3`. -/
def rhSearch (c : List Line) (cur : Int) (line : Line) : Except PyErr (Option (Int × Line)) :=
  rhSearchGo c cur line [-3, -2, -1, 0, 1, 2, 3]

/-- `f"@@ -{n},1 +{n},1 @@"`, the rewritten header after a successful search. -/
def mkAtHeader (n : Int) : Line :=
  chars "@@ -" ++ intChars n ++ chars ",1 +" ++ intChars n ++ chars ",1 @@"

/-- `cleaned_lines[-1] = x` (`IndexError` on an empty list). -/
def pySetLast (l : List Line) (x : Line) : Except PyErr (List Line) :=
  match l with
  | [] => .error .indexError
  | _ :: _ => .ok (l.dropLast ++ [x])

/-- One iteration of the `remove_hallucinations` loop on line `i`. -/
def rhStep (lines : List Line) (tree : GitTree) (i : Nat) (st : RHState)
    (h : i < lines.length) : Except PyErr (RHState × RHTag) :=
  let line := lines.get ⟨i, h⟩
  let sem1 := st.semaphore - 1
  match rhTripleCheck lines i line with
  | .error e => .error e
  | .ok true =>
    match parseDashName line with
    | none => .error .attributeError
    | some filepath =>
      match lookupTree tree filepath with
      | some (.blob raw) =>
        .ok ({ st with
                cleaned := st.cleaned ++ [line]
                content := some (pySplitlines raw)
                isNewFile := false
                semaphore := sem1 }, .fileHeader)
      | some .dir => .error .attributeError
      | none =>
        .ok ({ st with
                cleaned := st.cleaned ++ [line]
                content := none
                lineNo := 0
                isNewFile := true
                semaphore := sem1 }, .fileHeader)
  | .ok false =>
    if startsW (chars "@@") line then
      match parseHunkHeader line with
      | none => .error .attributeError
      | some (sx, _) =>
        .ok ({ st with
                cleaned := st.cleaned ++ [line]
                lineNo := (sx : Int) - 1
                indentOffset := 0
                semaphore := 2 }, .hunkHeader)
    else if startsW (chars "+++") line then
      .ok ({ st with cleaned := st.cleaned ++ [line], semaphore := sem1 }, .plusHeader)
    else if startsW (chars "-") line then
      if st.isNewFile then .ok ({ st with semaphore := sem1 }, .removedSkippedNew)
      else
        match ofContent st.content with
        | .error e => .error e
        | .ok c =>
          if (c.length : Int) ≤ st.lineNo then
            .ok ({ st with semaphore := sem1 }, .removedSkippedEof)
          else
            match pyGet c st.lineNo with
            | .error e => .error e
            | .ok fl =>
              let lineContent := line.drop 1
              let st1 : RHState :=
                { st with
                  cleaned := st.cleaned ++ ['-' :: fl]
                  lineNo := st.lineNo + 1
                  semaphore := sem1 }
              if lstrip lineContent ≠ lstrip fl then .ok (st1, .removedEmit)
              else if lineContent ≠ fl ∧ lstrip lineContent = lstrip fl then
                let realInd : Int := (fl.length : Int) - ((lstrip fl).length : Int)
                let hallInd : Int :=
                  (lineContent.length : Int) - ((lstrip lineContent).length : Int)
                .ok ({ st1 with indentOffset := realInd - hallInd }, .removedEmit)
              else .ok (st1, .removedEmit)
    else if startsW (chars "+") line then
      .ok ({ st with
             cleaned := st.cleaned ++ ['+' :: adjustLineIndentation (line.drop 1) st.indentOffset]
             semaphore := sem1 }, .addedLine)
    else if lstrip line ≠ line then
      if st.isNewFile then .ok ({ st with semaphore := sem1 }, .ctxSkippedNew)
      else
        match ofContent st.content with
        | .error e => .error e
        | .ok c =>
          if (c.length : Int) ≤ st.lineNo then
            .ok ({ st with semaphore := sem1 }, .ctxSkippedEof)
          else
            match pyGet c st.lineNo with
            | .error e => .error e
            | .ok fl =>
              if lstrip line = lstrip fl then
                let emitted : Line :=
                  if st.indentOffset ≠ 0 then
                    ' ' :: adjustLineIndentation (line.drop 1) st.indentOffset
                  else ' ' :: fl
                .ok ({ st with
                       cleaned := st.cleaned ++ [emitted]
                       lineNo := st.lineNo + 1
                       semaphore := sem1 }, .ctxMatched)
              else if sem1 ≠ 0 then
                match rhSearch c st.lineNo line with
                | .error e => .error e
                | .ok (some (p, cfl)) =>
                  match pySetLast st.cleaned (mkAtHeader (p + 1)) with
                  | .error e => .error e
                  | .ok cl =>
                    .ok ({ st with
                           cleaned := cl ++ [' ' :: cfl]
                           lineNo := p + 1
                           semaphore := sem1 }, .ctxSearchHit)
                | .ok none => .ok ({ st with semaphore := sem1 }, .ctxSearchMiss)
              else .ok ({ st with semaphore := sem1 }, .ctxDropped)
    else
      .ok ({ st with
             cleaned := st.cleaned ++ [line]
             lineNo := st.lineNo + 1
             semaphore := sem1 }, .passThrough)

/-- State after the first `k` loop iterations (iterations beyond the list length
do nothing; the pass itself runs exactly `lines.length` of them). -/
def rhRunPrefix (lines : List Line) (tree : GitTree) : Nat → Except PyErr RHState
  | 0 => .ok rhInit
  | k + 1 =>
    match rhRunPrefix lines tree k with
    | .error e => .error e
    | .ok st =>
      if h : k < lines.length then
        match rhStep lines tree k st h with
        | .error e => .error e
        | .ok (st', _) => .ok st'
      else .ok st

/-- `remove_hallucinations(lines, tree)`: run the loop, then force the final
line empty (`cleaned_lines[-1]`, an `IndexError` on an empty result). -/
def removeHallucinations (lines : List Line) (tree : GitTree) : Except PyErr (List Line) :=
  match rhRunPrefix lines tree lines.length with
  | .error e => .error e
  | .ok st =>
    match st.cleaned.getLast? with
    | none => .error .indexError
    | some last =>
      .ok (if last = ([] : Line) then st.cleaned else st.cleaned.dropLast ++ [([] : Line)])

/-!  ## The structural rewrites of `Unidiff.fix` (validators.py lines 194-295)  -/

/-- Rule 1 (line 195): drop any `diff --git` line. -/
def normA (lines : List Line) : List Line :=
  lines.filter (fun l => !startsW (chars "diff --git") l)

/-- Rule 2 (lines 198-203): strip leading whitespace from an old-path line of a
`---`/`+++`/`@@` triple.  The lookahead reads `lines[i+1]` and `lines[i+2]`
unguarded, so it can raise `IndexError`. -/
def normB (lines : List Line) : Nat → Nat → Except PyErr (List Line)
  | 0, _ => .ok lines
  | fuel + 1, i =>
    if h : i < lines.length then
      let s := lstrip (lines.get ⟨i, h⟩)
      if startsW (chars "---") s then
        match pyGet lines ((i : Int) + 1) with
        | .error e => .error e
        | .ok l1 =>
          if startsW (chars "+++") l1 then
            match pyGet lines ((i : Int) + 2) with
            | .error e => .error e
            | .ok l2 =>
              if startsW (chars "@@") l2 then normB (lines.set i s) fuel (i + 1)
              else normB lines fuel (i + 1)
          else normB lines fuel (i + 1)
      else normB lines fuel (i + 1)
    else .ok lines

/-- Rule 3 (lines 206-211): rewrite `--- a/` and `+++ b/` markers, with the
early `break` once fewer than two lines remain. -/
def normC (lines : List Line) : Nat → Nat → List Line
  | 0, _ => lines
  | fuel + 1, i =>
    if h : i < lines.length then
      if lines.length < i + 2 then lines
      else
        let line := lines.get ⟨i, h⟩
        if startsW (chars "--- a/") line ∧ startsW (chars "+++ b/") (lines.getD (i + 1) []) then
          let l0 := pyReplace line (chars "--- a/") (chars "--- ")
          let l1 := pyReplace (lines.getD (i + 1) []) (chars "+++ b/") (chars "+++ ")
          normC ((lines.set i l0).set (i + 1) l1) fuel (i + 1)
        else normC lines fuel (i + 1)
    else lines

/-- Rule 4 (lines 214-218): turn an empty line into a single space unless it
precedes a `---` line or is the last line (same early `break`). -/
def normD (lines : List Line) : Nat → Nat → List Line
  | 0, _ => lines
  | fuel + 1, i =>
    if h : i < lines.length then
      if lines.length < i + 2 then lines
      else
        let line := lines.get ⟨i, h⟩
        if line = ([] : Line) ∧ ¬startsW (chars "---") (lines.getD (i + 1) []) ∧
            i ≠ lines.length - 1 then
          normD (lines.set i [' ']) fuel (i + 1)
        else normD lines fuel (i + 1)
    else lines

/-- Rule 5 (lines 221-222): ensure the text ends with an empty line
(`lines[-1]` raises `IndexError` on an empty list). -/
def normE (lines : List Line) : Except PyErr (List Line) :=
  match lines.getLast? with
  | none => .error .indexError
  | some last => .ok (if last = ([] : Line) then lines else lines ++ [([] : Line)])

/-- Scan of rule 6 (lines 226-229): indices of `+++ `/`@@ ` pairs with no `---`
line right before them (`lines[i-1]` wraps for `i = 0`, Python style). -/
def normFScan (lines : List Line) : Nat → Nat → List Nat → Except PyErr (List Nat)
  | 0, _, acc => .ok acc
  | fuel + 1, i, acc =>
    if h : i < lines.length then
      let line := lines.get ⟨i, h⟩
      if startsW (chars "+++ ") line then
        match pyGet lines ((i : Int) + 1) with
        | .error e => .error e
        | .ok l1 =>
          if startsW (chars "@@ ") l1 then
            match pyGet lines ((i : Int) - 1) with
            | .error e => .error e
            | .ok lm =>
              if ¬startsW (chars "---") lm then normFScan lines fuel (i + 1) (acc ++ [i])
              else normFScan lines fuel (i + 1) acc
          else normFScan lines fuel (i + 1) acc
      else normFScan lines fuel (i + 1) acc
    else .ok acc

/-- Insertion phase of rule 6 (lines 230-231). -/
def normFIns (idxs : List Nat) (k : Nat) (lines : List Line) : List Line :=
  match idxs with
  | [] => lines
  | x :: rest => normFIns rest (k + 1) (listInsert (x + k) (chars "--- /dev/null") lines)

/-- Rule 6: insert `--- /dev/null` before orphaned `+++`/`@@` pairs. -/
def normF (lines : List Line) : Except PyErr (List Line) :=
  match normFScan lines lines.length 0 [] with
  | .error e => .error e
  | .ok idxs => .ok (normFIns idxs 0 lines)

/-- Rule 7 (lines 236-246): make the `+++` filename of each well-formed triple
match the `---` filename (bounds here are checked before the reads). -/
def normG (lines : List Line) : Nat → Nat → Except PyErr (List Line)
  | 0, _ => .ok lines
  | fuel + 1, i =>
    if h : i < lines.length then
      let line := lines.get ⟨i, h⟩
      if startsW (chars "---") line ∧ ¬startsW (chars "--- /dev/null") line then
        match parseDashName line with
        | none => .error .attributeError
        | some filename =>
          if i + 1 < lines.length ∧ startsW (chars "+++") (lines.getD (i + 1) []) ∧
              i + 2 < lines.length ∧ startsW (chars "@@") (lines.getD (i + 2) []) then
            normG (lines.set (i + 1) (chars "+++ " ++ filename)) fuel (i + 1)
          else normG lines fuel (i + 1)
      else normG lines fuel (i + 1)
    else .ok lines

/-- Rule 8 (lines 249-268): for each triple whose `+++` filename is not in the
tree, rewrite both path lines to the first traversal entry whose path ends in
the filename, or make the old path `--- /dev/null` when none does. -/
def normH (tree : GitTree) (lines : List Line) : Nat → Nat → Except PyErr (List Line)
  | 0, _ => .ok lines
  | fuel + 1, i =>
    if h : i < lines.length then
      let line := lines.get ⟨i, h⟩
      if startsW (chars "---") line then
        match pyGet lines ((i : Int) + 1) with
        | .error e => .error e
        | .ok l1 =>
          if startsW (chars "+++") l1 then
            match pyGet lines ((i : Int) + 2) with
            | .error e => .error e
            | .ok l2 =>
              if startsW (chars "@@") l2 then
                match parsePlusName l1 with
                | none => .error .attributeError
                | some filename =>
                  match lookupTree tree filename with
                  | some _ => normH tree lines fuel (i + 1)
                  | none =>
                    match tree.find? (fun e => filename.isSuffixOf e.1) with
                    | some e =>
                      normH tree
                        ((lines.set i (chars "--- " ++ e.1)).set (i + 1) (chars "+++ " ++ e.1))
                        fuel (i + 1)
                    | none => normH tree (lines.set i (chars "--- /dev/null")) fuel (i + 1)
              else normH tree lines fuel (i + 1)
          else normH tree lines fuel (i + 1)
      else normH tree lines fuel (i + 1)
    else .ok lines

/-- Scan of rule 9 (lines 270-277): remember the last well-formed triple's path
lines and record each lone `@@` line (`lines[i-1]` wraps for `i = 0`). -/
def normIScan (lines : List Line) :
    Nat → Nat → List Line → List (Nat × List Line) → Except PyErr (List (Nat × List Line))
  | 0, _, _, acc => .ok acc
  | fuel + 1, i, block, acc =>
    if h : i < lines.length then
      let line := lines.get ⟨i, h⟩
      match
        (if startsW (chars "---") line then
          match pyGet lines ((i : Int) + 1) with
          | .error e => .error e
          | .ok l1 =>
            if startsW (chars "+++ ") l1 then
              match pyGet lines ((i : Int) + 2) with
              | .error e => .error e
              | .ok l2 =>
                if startsW (chars "@@") l2 then .ok [line, l1] else .ok block
            else .ok block
        else .ok block : Except PyErr (List Line)) with
      | .error e => .error e
      | .ok block1 =>
        if startsW (chars "@@") line then
          match pyGet lines ((i : Int) - 1) with
          | .error e => .error e
          | .ok lm =>
            if ¬startsW (chars "+++ ") lm then normIScan lines fuel (i + 1) block1 (acc ++ [(i, block1)])
            else normIScan lines fuel (i + 1) block1 acc
        else normIScan lines fuel (i + 1) block1 acc
    else .ok acc

/-- Insertion phase of rule 9 (lines 278-281): `newlines[0]`/`newlines[1]`
raise `IndexError` when no triple preceded the lone hunk header. -/
def normIIns (pairs : List (Nat × List Line)) (k : Nat) (lines : List Line) :
    Except PyErr (List Line) :=
  match pairs with
  | [] => .ok lines
  | (idx, nl) :: rest =>
    match pyGet nl 0 with
    | .error e => .error e
    | .ok a =>
      match pyGet nl 1 with
      | .error e => .error e
      | .ok b =>
        normIIns rest (k + 1) (listInsert (idx + 2 * k + 1) b (listInsert (idx + 2 * k) a lines))

/-- Rule 9: duplicate the previous block's path lines before a lone `@@` line. -/
def normI (lines : List Line) : Except PyErr (List Line) :=
  match normIScan lines lines.length 0 [] [] with
  | .error e => .error e
  | .ok pairs => normIIns pairs 0 lines

/-- Rule 10 (lines 283-295): when the tree has an entry named like the
repository, duplicate that leading path segment in each triple's path lines. -/
def normJLoop (rn : Line) (lines : List Line) : Nat → Nat → Except PyErr (List Line)
  | 0, _ => .ok lines
  | fuel + 1, i =>
    if h : i < lines.length then
      let line := lines.get ⟨i, h⟩
      if startsW (chars "---") line then
        match pyGet lines ((i : Int) + 1) with
        | .error e => .error e
        | .ok l1 =>
          if startsW (chars "+++") l1 then
            match pyGet lines ((i : Int) + 2) with
            | .error e => .error e
            | .ok l2 =>
              if startsW (chars "@@") l2 then
                if startsW (chars "+++ " ++ rn ++ chars "/") l1 then
                  let pat0 := chars "--- " ++ rn ++ chars "/"
                  let rep0 := chars "--- " ++ rn ++ chars "/" ++ rn ++ chars "/"
                  let pat1 := chars "+++ " ++ rn ++ chars "/"
                  let rep1 := chars "+++ " ++ rn ++ chars "/" ++ rn ++ chars "/"
                  normJLoop rn
                    ((lines.set i (pyReplace line pat0 rep0)).set (i + 1) (pyReplace l1 pat1 rep1))
                    fuel (i + 1)
                else normJLoop rn lines fuel (i + 1)
              else normJLoop rn lines fuel (i + 1)
          else normJLoop rn lines fuel (i + 1)
      else normJLoop rn lines fuel (i + 1)
    else .ok lines

/-- Rule 10 with its `tree / repo_name` guard. -/
def normJ (tree : GitTree) (rn : Line) (lines : List Line) : Except PyErr (List Line) :=
  match lookupTree tree rn with
  | none => .ok lines
  | some _ => normJLoop rn lines lines.length 0

/-- The Structural Normalizer: rules 1-10 of `Unidiff.fix`, in source order. -/
def structuralNormalizer (tree : GitTree) (rn : Line) (lines : List Line) :
    Except PyErr (List Line) :=
  let l1 := normA lines
  match normB l1 l1.length 0 with
  | .error e => .error e
  | .ok l2 =>
    let l3 := normC l2 l2.length 0
    let l4 := normD l3 l3.length 0
    match normE l4 with
    | .error e => .error e
    | .ok l5 =>
      match normF l5 with
      | .error e => .error e
      | .ok l6 =>
        match normG l6 l6.length 0 with
        | .error e => .error e
        | .ok l7 =>
          match normH tree l7 l7.length 0 with
          | .error e => .error e
          | .ok l8 =>
            match normI l8 with
            | .error e => .error e
            | .ok l9 => normJ tree rn l9

/-- The full repair pipeline of `Unidiff.fix` at the line level: structural
rewrites, then hallucination removal, then line-count recalculation. -/
def unidiffFixLines (tree : GitTree) (rn : Line) (lines : List Line) :
    Except PyErr (List Line) :=
  match structuralNormalizer tree rn lines with
  | .error e => .error e
  | .ok l =>
    match removeHallucinations l tree with
    | .error e => .error e
    | .ok r => fixUnidiffLineCounts r

/-!  ## `create_filepath_validator` (validators.py lines 316-346)  -/

/-- `blob.type` of a tree entry. -/
def entryTypeStr : GEntry → Line
  | .blob _ => chars "blob"
  | .dir => chars "tree"

/-- `f"File path '{value}' does not exist in the repo."`. -/
def pathNotExistMsg (value : Line) : Line :=
  chars "File path '" ++ value ++ chars "' does not exist in the repo."

/-- `f"File path '{value}' is not a file."`. -/
def pathNotFileMsg (value : Line) : Line :=
  chars "File path '" ++ value ++ chars "' is not a file."

/-- `FilePath.validate`: the raised `EventDetail` is modelled by its
description. -/
def validateFilepath {σ : Type} (tree : GitTree) (value : Line) (schema : σ) : Except Line σ :=
  match lookupTree tree value with
  | none => .error (pathNotExistMsg value)
  | some b => if entryTypeStr b ≠ chars "blob" then .error (pathNotFileMsg value) else .ok schema

/-!  ## The external applicability check (spec §6), for claim C8 only  -/

/-- Hunk header with all four numbers, as in the spec's wire format
`@@ -old_start,old_count +new_start,new_count @@`. -/
def parseHunkHeaderFull (l : Line) : Option (Nat × Nat × Nat × Nat) := do
  let r1 ← dropPre? (chars "@@ -") l
  let (a, r2) ← takeDigits r1
  let r3 ← dropPre? [','] r2
  let (b, r4) ← takeDigits r3
  let r5 ← dropPre? (chars " +") r4
  let (c, r6) ← takeDigits r5
  let r7 ← dropPre? [','] r6
  let (d, r8) ← takeDigits r7
  match dropPre? (chars " @@") r8 with
  | some [] => pure (a, b, c, d)
  | _ => none

/-- Removed and context body lines must reproduce the file's lines from the
claimed start position onward. -/
def checkBodyLines (content : List Line) : Nat → List Line → Bool
  | _, [] => true
  | cur, l :: rest =>
    match l.head? with
    | some '+' => checkBodyLines content cur rest
    | some '-' =>
      decide (cur < content.length) && decide (content.getD cur [] = l.drop 1) &&
        checkBodyLines content (cur + 1) rest
    | some ' ' =>
      decide (cur < content.length) && decide (content.getD cur [] = l.drop 1) &&
        checkBodyLines content (cur + 1) rest
    | _ => false

/-- Counting of the old-side (removed-or-context) body lines of one hunk. -/
def specOldTally (body : List Line) : Nat :=
  (body.filter (fun l => l.head? = some '-' || l.head? = some ' ')).length

/-- Counting of the new-side (added-or-context) body lines of one hunk. -/
def specNewTally (body : List Line) : Nat :=
  (body.filter (fun l => l.head? = some '+' || l.head? = some ' ')).length

/-- Body of one hunk in the wire format: the lines before the next hunk header
or the next file-header line. -/
def specHunkBody : List Line → List Line
  | [] => []
  | l :: rest =>
    if startsW (chars "@@") l || startsW (chars "--- ") l then []
    else l :: specHunkBody rest

/-- What remains of the diff after one hunk's body. -/
def specHunkRest : List Line → List Line
  | [] => []
  | l :: rest =>
    if startsW (chars "@@") l || startsW (chars "--- ") l then l :: rest
    else specHunkRest rest

/-- One hunk applies cleanly: well-shaped body lines, the removed/context lines
reproduce the file content from `old_start` on, and the header counts are the
true body tallies.  `none` is new-file mode (`/dev/null` old path): added lines
only and a zero old count. -/
def specCheckHunk (content : Option (List Line)) (body : List Line)
    (os oc nc : Nat) : Bool :=
  match content with
  | none =>
    body.all (fun l => l.head? = some '+') && decide (oc = 0) &&
      decide (nc = body.length)
  | some c =>
    body.all (fun l => l.head? = some '-' || l.head? = some ' ' || l.head? = some '+') &&
      decide (1 ≤ os) && decide (oc = specOldTally body) &&
      decide (nc = specNewTally body) && checkBodyLines c (os - 1) body

/-- The file-section / hunk walk of the modelled checker: a `--- `/`+++ ` pair
switches to that file's content (or to new-file mode for the sentinel), an `@@`
header checks one hunk against the current content, anything else fails. -/
def specCheckFrom (t : GitTree) (content : Option (List Line)) :
    Nat → List Line → Bool
  | 0, d => d.isEmpty
  | fuel + 1, d =>
    match d with
    | [] => true
    | l :: rest =>
      if startsW (chars "--- ") l then
        match dropPre? (chars "--- ") l, rest with
        | some oldPath, newL :: rest2 =>
          if startsW (chars "+++ ") newL then
            if oldPath = chars "/dev/null" then specCheckFrom t none fuel rest2
            else
              match lookupTree t oldPath with
              | some (.blob raw) => specCheckFrom t (some (pySplitlines raw)) fuel rest2
              | _ => false
          else false
        | _, _ => false
      else if startsW (chars "@@") l then
        match parseHunkHeaderFull l with
        | none => false
        | some (os, oc, _, nc) =>
          specCheckHunk content (specHunkBody rest) os oc nc &&
            specCheckFrom t content fuel (specHunkRest rest)
      else false

/-- Modelled from the spec: the applicability checker (`git apply --check`,
spec §6) is an external collaborator, not part of this repository's source.
Following §6's wire format and §1, a diff applies cleanly when it is a
sequence of file sections — a `--- `/`+++ ` header pair followed by one or
more `@@` hunks (several hunks may follow a single header pair) — such that an
old path other than the `/dev/null` sentinel names a file of the tree, every
removed/context body line of every hunk equals the file line at the advancing
position starting at that hunk's `old_start`, and each header's counts are the
true body tallies (removed-or-context for the old side, added-or-context for
the new side); a `/dev/null` section must consist of added lines only.  One
trailing empty line (the terminating newline) is allowed. -/
def appliesCleanly (d : List Line) (t : GitTree) : Bool :=
  let d2 := if d.getLast? = some ([] : Line) then d.dropLast else d
  match d2 with
  | [] => false
  | l :: _ => startsW (chars "--- ") l && specCheckFrom t none d2.length d2

/-!  ## Named concrete inputs used by the claim theorems and witnesses  -/

/-- The Dockerfile of the repository's own test suite. -/
def dockerRaw : List Char :=
  chars "FROM duffn/python-poetry:3.9-slim\n\n# Install git\nRUN apt-get update && apt-get install -y git\n\n# Set up entrypoint\nCOPY entrypoint.sh /entrypoint.sh\nRUN chmod +x /entrypoint.sh\n\n# Run the app\nENTRYPOINT [\"/entrypoint.sh\"]"

/-- A tree holding that Dockerfile. -/
def dockerTree : GitTree := [(chars "Dockerfile", .blob dockerRaw)]

/-- The already-correct Dockerfile diff of the test suite (newline-terminated,
so its line sequence ends with one empty line). -/
def correctDockerDiff : List Line :=
  [chars "--- Dockerfile", chars "+++ Dockerfile", chars "@@ -5,6 +5,8 @@",
   chars " ", chars " # Set up entrypoint", chars " COPY entrypoint.sh /entrypoint.sh",
   chars "+", chars "+# Make entrypoint executable", chars " RUN chmod +x /entrypoint.sh",
   chars " ", chars " # Run the app", chars ""]

/-- C1 counterexample input: one hunk whose body is a context line plus the
trailing empty line. -/
def c1In : List Line := [chars "@@ -1,1 +1,1 @@", chars " a", chars ""]

/-- C2 counterexample tree: the file `f` holds the single line `real`. -/
def c2Tree : GitTree := [(chars "f", .blob (chars "real"))]

/-- C2 counterexample diff: a removed line whose trimmed content matches
nothing in the file. -/
def c2In : List Line :=
  [chars "--- f", chars "+++ f", chars "@@ -1,1 +1,1 @@", chars "-XYZ", chars ""]

/-- C3 counterexample tree: the repository name `r` is a top-level directory
and the blobs exist both at the duplicated and at the re-duplicated path. -/
def c3Tree : GitTree :=
  [(chars "r", .dir), (chars "r/r", .dir), (chars "r/f", .blob (chars "x")),
   (chars "r/r/f", .blob (chars "x")), (chars "r/r/r", .dir),
   (chars "r/r/r/f", .blob (chars "x"))]

/-- C3 counterexample input: a well-formed triple whose path does not yet
repeat the repository name. -/
def c3In : List Line := [chars "--- r/f", chars "+++ r/f", chars "@@ -1,1 +1,1 @@", chars ""]

/-- C6/C5 witness content: the context line `ctx` sits at 0-based position 4. -/
def c6Content : List Line :=
  [chars "a", chars "b", chars "c", chars "d", chars "ctx", chars "e", chars "f", chars "g"]

/-- C6/C5 witness tree. -/
def c6Tree : GitTree := [(chars "f", .blob (chars "a\nb\nc\nd\nctx\ne\nf\ng"))]

/-- C6/C5 witness diff: the header claims start line 6 but the matching context
is the file's line 5 (spec §8, shifted-line-numbers scenario). -/
def c6In : List Line :=
  [chars "--- f", chars "+++ f", chars "@@ -6,1 +6,1 @@", chars " ctx", chars ""]

/-- C7 counterexample input: an interior empty line directly before a non-triple
`---` line that the pass drops, leaving two trailing empty lines. -/
def c7In : List Line :=
  [chars "--- f", chars "+++ f", chars "@@ -1,1 +1,1 @@", chars "", chars "--- x", chars ""]

/-- C8 counterexample tree: the repository is named `r`, `r` is a top-level
directory, and `r/f` holds the single line `hello`. -/
def c8Tree : GitTree := [(chars "r", .dir), (chars "r/f", .blob (chars "hello"))]

/-- C8 counterexample diff: a cleanly-applying one-context-line diff against
`r/f`. -/
def c8In : List Line :=
  [chars "--- r/f", chars "+++ r/f", chars "@@ -1,1 +1,1 @@", chars " hello", chars ""]

/-- C8 multi-hunk counterexample tree: `f` holds the four lines a, b, c, d. -/
def c8MultiTree : GitTree := [(chars "f", .blob (chars "a\nb\nc\nd"))]

/-- C8 multi-hunk counterexample diff: a standard two-hunk diff over one
file-header pair, with the true body line counts in both headers; it applies
cleanly and no path heuristic applies to it. -/
def c8MultiIn : List Line :=
  [chars "--- f", chars "+++ f", chars "@@ -1,1 +1,1 @@", chars "-a", chars "+A",
   chars "@@ -3,1 +3,1 @@", chars "-c", chars "+C", chars ""]

/-- C8 multi-hunk counterexample output: rule 9 reinserted a file-header triple
before the second hunk and the recalculator rewrote the first (non-final)
hunk's counts to the tallies minus one, so the result no longer applies. -/
def c8MultiOut : List Line :=
  [chars "--- f", chars "+++ f", chars "@@ -1,0 +1,0 @@", chars "-a", chars "+A",
   chars "--- f", chars "+++ f", chars "@@ -3,1 +3,1 @@", chars "-c", chars "+C", chars ""]

/-- C9 witness tree: a directory `d` and a file `d/f`. -/
def c9Tree : GitTree := [(chars "d", .dir), (chars "d/f", .blob (chars "hello"))]

/-- C2 witness state: the `remove_hallucinations` state right before the
removed line of `c2In` is processed. -/
def c2State : RHState :=
  { cleaned := [chars "--- f", chars "+++ f", chars "@@ -1,1 +1,1 @@"],
    content := some [chars "real"], lineNo := 0, semaphore := 2, indentOffset := 0,
    isNewFile := false }

/-- C5/C6 witness state: the pass on `c6In` right before the mismatched
context line (the hunk header claimed start 6, so the cursor is 5). -/
def c5StBefore : RHState :=
  { cleaned := [chars "--- f", chars "+++ f", chars "@@ -6,1 +6,1 @@"],
    content := some c6Content, lineNo := 5, semaphore := 2, indentOffset := 0,
    isNewFile := false }

/-- C5/C6 witness state: after the search recovery found `ctx` at position 4
the header was rewritten to start 5 and the cursor is 5. -/
def c5StAfter : RHState :=
  { cleaned := [chars "--- f", chars "+++ f", chars "@@ -5,1 +5,1 @@", chars " ctx"],
    content := some c6Content, lineNo := 5, semaphore := 1, indentOffset := 0,
    isNewFile := false }

/-- C7 counterexample output: the repaired text ends with two empty lines. -/
def c7Out : List Line :=
  [chars "--- /dev/null", chars "+++ f", chars "@@ -1,1 +1,1 @@", chars "", chars ""]

/-- C8 counterexample output: the pipeline rewrote the cleanly-applying `c8In`
into a diff against the non-existent path `r/r/f` with its context line gone. -/
def c8Out : List Line :=
  [chars "--- r/r/f", chars "+++ r/r/f", chars "@@ -1,0 +1,0 @@", chars ""]

/-- C3 counterexample, first application of the normalizer. -/
def c3Mid : List Line :=
  [chars "--- r/r/f", chars "+++ r/r/f", chars "@@ -1,1 +1,1 @@", chars ""]

/-- C3 counterexample, second application of the normalizer. -/
def c3Twice : List Line :=
  [chars "--- r/r/r/f", chars "+++ r/r/r/f", chars "@@ -1,1 +1,1 @@", chars ""]

/-!  ## Supporting lemmas for the line-count recalculator  -/

/-- The body of the hunk starting after position `j`: everything up to the next
boundary. -/
def bodyFrom (lines : List Line) (j : Nat) : List Line :=
  (lines.drop j).take (hunkEnd lines j - j)

theorem hunkEndFuel_irrel (lines : List Line) :
    ∀ f1 f2 j, lines.length ≤ f1 + j → lines.length ≤ f2 + j →
      hunkEndFuel lines f1 j = hunkEndFuel lines f2 j := by
  intro f1
  induction f1 with
  | zero =>
    intro f2 j h1 _
    cases f2 with
    | zero => rfl
    | succ f2 =>
      simp only [hunkEndFuel]
      rw [if_neg (by omega)]
  | succ f1 ih =>
    intro f2 j h1 h2
    cases f2 with
    | zero =>
      simp only [hunkEndFuel]
      rw [if_neg (by omega)]
    | succ f2 =>
      simp only [hunkEndFuel]
      by_cases hj : j < lines.length
      · rw [if_pos hj, if_pos hj]
        by_cases hb : hunkBoundary lines j
        · rw [if_pos hb, if_pos hb]
        · rw [if_neg hb, if_neg hb]
          exact ih f2 (j + 1) (by omega) (by omega)
      · rw [if_neg hj, if_neg hj]

theorem hunkEnd_of_ge (lines : List Line) (j : Nat) (h : lines.length ≤ j) :
    hunkEnd lines j = j := by
  unfold hunkEnd hunkEndFuel
  rw [if_neg (by omega)]

theorem hunkEnd_of_boundary (lines : List Line) (j : Nat) (hj : j < lines.length)
    (hb : hunkBoundary lines j = true) : hunkEnd lines j = j := by
  unfold hunkEnd hunkEndFuel
  rw [if_pos hj, if_pos hb]

theorem hunkEnd_of_not_boundary (lines : List Line) (j : Nat) (hj : j < lines.length)
    (hb : hunkBoundary lines j = false) : hunkEnd lines j = hunkEnd lines (j + 1) := by
  unfold hunkEnd
  conv_lhs => rw [show lines.length + 1 = lines.length + 1 - 1 + 1 by omega]
  simp only [hunkEndFuel]
  rw [if_pos hj, if_neg (by simp [hb])]
  exact hunkEndFuel_irrel lines (lines.length + 1 - 1) (lines.length + 1) (j + 1)
    (by omega) (by omega)

theorem hunkEnd_ge (lines : List Line) : ∀ fuel j, j ≤ hunkEndFuel lines fuel j := by
  intro fuel
  induction fuel with
  | zero => intro j; simp [hunkEndFuel]
  | succ fuel ih =>
    intro j
    simp only [hunkEndFuel]
    by_cases hj : j < lines.length
    · rw [if_pos hj]
      by_cases hb : hunkBoundary lines j
      · rw [if_pos hb]
      · rw [if_neg hb]
        exact le_trans (by omega) (ih (j + 1))
    · rw [if_neg hj]

theorem bodyFrom_of_ge (lines : List Line) (j : Nat) (h : lines.length ≤ j) :
    bodyFrom lines j = [] := by
  unfold bodyFrom
  rw [List.drop_eq_nil_of_le h]
  simp

theorem bodyFrom_of_boundary (lines : List Line) (j : Nat) (hj : j < lines.length)
    (hb : hunkBoundary lines j = true) : bodyFrom lines j = [] := by
  unfold bodyFrom
  rw [hunkEnd_of_boundary lines j hj hb]
  simp

theorem bodyFrom_of_not_boundary (lines : List Line) (j : Nat) (hj : j < lines.length)
    (hb : hunkBoundary lines j = false) :
    bodyFrom lines j = lines.getD j [] :: bodyFrom lines (j + 1) := by
  unfold bodyFrom
  rw [hunkEnd_of_not_boundary lines j hj hb]
  have hge : j + 1 ≤ hunkEnd lines (j + 1) := hunkEnd_ge lines (lines.length + 1) (j + 1)
  have hdrop : lines.drop j = lines.getD j [] :: lines.drop (j + 1) := by
    rw [List.getD_eq_getElem lines [] hj]
    exact List.drop_eq_getElem_cons hj
  rw [hdrop, show hunkEnd lines (j + 1) - j = (hunkEnd lines (j + 1) - (j + 1)) + 1 by omega,
    List.take_succ_cons]

theorem startsW_single (c : Char) (l : Line) : startsW [c] l = decide (l.head? = some c) := by
  cases l with
  | nil => simp [startsW, List.isPrefixOf]
  | cons a as =>
    simp only [startsW, List.isPrefixOf, List.head?_cons, Bool.and_true]
    by_cases h : c = a
    · subst h
      simp
    · have hba : (c == a) = false := by simp [h]
      rw [hba]
      simp [Ne.symm h]

theorem startsW_single_of_ne (c d : Char) (l : Line) (hne : c ≠ d)
    (h : startsW [c] l = true) : startsW [d] l = false := by
  rw [startsW_single] at h ⊢
  simp only [decide_eq_true_eq] at h
  rw [h]
  simp only [decide_eq_false_iff_not]
  intro hcon
  injection hcon with hcd
  exact hne hcd

theorem isOldCounted_of_dash (l : Line) (h : startsW (chars "-") l = true) :
    isOldCounted l = true ∧ isNewCounted l = false := by
  have hplus : startsW (chars "+") l = false := startsW_single_of_ne '-' '+' l (by decide) h
  constructor
  · simp [isOldCounted, h]
  · simp [isNewCounted, hplus, h]

theorem counts_of_plus (l : Line) (h1 : startsW (chars "-") l = false)
    (h2 : startsW (chars "+") l = true) :
    isOldCounted l = false ∧ isNewCounted l = true := by
  constructor
  · simp [isOldCounted, h1, h2]
  · simp [isNewCounted, h2]

theorem counts_of_bslash (l : Line) (h1 : startsW (chars "-") l = false)
    (h2 : startsW (chars "+") l = false) (h3 : startsW (chars "\\") l = true) :
    isOldCounted l = false ∧ isNewCounted l = false := by
  constructor
  · simp [isOldCounted, h1, h2, h3]
  · simp [isNewCounted, h1, h2, h3]

theorem counts_of_other (l : Line) (h1 : startsW (chars "-") l = false)
    (h2 : startsW (chars "+") l = false) (h3 : startsW (chars "\\") l = false) :
    isOldCounted l = true ∧ isNewCounted l = true := by
  constructor
  · simp [isOldCounted, h1, h2, h3]
  · simp [isNewCounted, h1, h2, h3]

theorem oldCountOf_cons (l : Line) (body : List Line) :
    oldCountOf (l :: body) = (if isOldCounted l then 1 else 0) + oldCountOf body := by
  simp only [oldCountOf, List.filter_cons]
  by_cases h : isOldCounted l
  · simp [h]
    omega
  · simp [h]

theorem newCountOf_cons (l : Line) (body : List Line) :
    newCountOf (l :: body) = (if isNewCounted l then 1 else 0) + newCountOf body := by
  simp only [newCountOf, List.filter_cons]
  by_cases h : isNewCounted l
  · simp [h]
    omega
  · simp [h]

theorem countLoop_spec (lines : List Line) :
    ∀ fuel j x y, lines.length ≤ fuel + j →
      countLoop lines fuel j x y =
        (x + oldCountOf (bodyFrom lines j), y + newCountOf (bodyFrom lines j)) := by
  intro fuel
  induction fuel with
  | zero =>
    intro j x y h
    rw [bodyFrom_of_ge lines j (by omega)]
    simp [countLoop, oldCountOf, newCountOf]
  | succ fuel ih =>
    intro j x y h
    simp only [countLoop]
    by_cases hj : j < lines.length
    · rw [if_pos hj]
      by_cases hb : hunkBoundary lines j
      · rw [if_pos hb, bodyFrom_of_boundary lines j hj hb]
        simp [oldCountOf, newCountOf]
      · rw [if_neg hb,
          bodyFrom_of_not_boundary lines j hj (Bool.eq_false_iff.mpr hb),
          oldCountOf_cons, newCountOf_cons]
        by_cases h1 : startsW (chars "-") (lines.getD j [])
        · rw [if_pos h1, ih (j + 1) (x + 1) y (by omega)]
          obtain ⟨ho, hn⟩ := isOldCounted_of_dash _ h1
          rw [ho, hn]
          simp only [Prod.mk.injEq]
          refine ⟨?_, ?_⟩ <;> simp <;> omega
        · rw [if_neg h1]
          by_cases h2 : startsW (chars "+") (lines.getD j [])
          · rw [if_pos h2, ih (j + 1) x (y + 1) (by omega)]
            obtain ⟨ho, hn⟩ := counts_of_plus _ (Bool.eq_false_iff.mpr h1) h2
            rw [ho, hn]
            simp only [Prod.mk.injEq]
            refine ⟨?_, ?_⟩ <;> simp <;> omega
          · rw [if_neg h2]
            by_cases h3 : startsW (chars "\\") (lines.getD j [])
            · rw [if_pos h3, ih (j + 1) x y (by omega)]
              obtain ⟨ho, hn⟩ :=
                counts_of_bslash _ (Bool.eq_false_iff.mpr h1) (Bool.eq_false_iff.mpr h2) h3
              rw [ho, hn]
              simp only [Prod.mk.injEq]
              refine ⟨?_, ?_⟩ <;> simp <;> omega
            · rw [if_neg h3, ih (j + 1) (x + 1) (y + 1) (by omega)]
              obtain ⟨ho, hn⟩ :=
                counts_of_other _ (Bool.eq_false_iff.mpr h1) (Bool.eq_false_iff.mpr h2)
                  (Bool.eq_false_iff.mpr h3)
              rw [ho, hn]
              simp only [Prod.mk.injEq]
              refine ⟨?_, ?_⟩ <;> simp <;> omega
    · rw [if_neg hj, bodyFrom_of_ge lines j (by omega)]
      simp [oldCountOf, newCountOf]

theorem fulcAux_spec (lines : List Line) :
    ∀ fuel i out, lines.length ≤ fuel + i → fulcAux lines fuel i = .ok out →
      out.length = lines.length - i ∧
      ∀ k, i + k < lines.length →
        (startsW (chars "@@") (lines.getD (i + k) []) = false →
          out.getD k [] = lines.getD (i + k) []) ∧
        (startsW (chars "@@") (lines.getD (i + k) []) = true →
          ∃ sx sy, parseHunkHeader (lines.getD (i + k) []) = some (sx, sy) ∧
            out.getD k [] =
              mkHeaderLine sx ((oldCountOf (hunkBodySlice lines (i + k)) : Int) - 1) sy
                ((newCountOf (hunkBodySlice lines (i + k)) : Int) - 1)) := by
  intro fuel
  induction fuel with
  | zero =>
    intro i out hlen hok
    simp only [fulcAux] at hok
    injection hok with hout
    subst hout
    refine ⟨by simp; omega, ?_⟩
    intro k hk
    omega
  | succ fuel ih =>
    intro i out hlen hok
    simp only [fulcAux] at hok
    by_cases h : i < lines.length
    · rw [dif_pos h] at hok
      have hgd : lines.getD i [] = lines.get ⟨i, h⟩ := by
        rw [List.getD_eq_getElem lines [] h]
        simp [List.get_eq_getElem]
      by_cases hs : startsW (chars "@@") (lines.get ⟨i, h⟩)
      · rw [if_pos hs] at hok
        cases hp : parseHunkHeader (lines.get ⟨i, h⟩) with
        | none => rw [hp] at hok; exact absurd hok (by simp)
        | some sxy =>
          rw [hp] at hok
          cases hrest : fulcAux lines fuel (i + 1) with
          | error e => rw [hrest] at hok; exact absurd hok (by simp)
          | ok rest =>
            rw [hrest] at hok
            injection hok with hout
            obtain ⟨ihlen, ihk⟩ := ih (i + 1) rest (by omega) hrest
            have hcount := countLoop_spec lines lines.length (i + 1) 0 0 (by omega)
            constructor
            · rw [← hout]
              simp
              omega
            · intro k hk
              cases k with
              | zero =>
                constructor
                · intro hfalse
                  rw [Nat.add_zero, hgd] at hfalse
                  rw [hs] at hfalse
                  exact absurd hfalse (by simp)
                · intro _
                  refine ⟨sxy.1, sxy.2, ?_, ?_⟩
                  · rw [Nat.add_zero, hgd, hp]
                  · rw [← hout]
                    simp only [List.getD_cons_zero]
                    rw [hcount]
                    have hbody : hunkBodySlice lines (i + 0) = bodyFrom lines (i + 1) := rfl
                    rw [hbody]
                    simp
              | succ k =>
                have hik : i + (k + 1) = (i + 1) + k := by omega
                rw [hik]
                rw [← hout]
                simp only [List.getD_cons_succ]
                exact ihk k (by omega)
      · rw [if_neg hs] at hok
        cases hrest : fulcAux lines fuel (i + 1) with
        | error e => rw [hrest] at hok; exact absurd hok (by simp)
        | ok rest =>
          rw [hrest] at hok
          injection hok with hout
          obtain ⟨ihlen, ihk⟩ := ih (i + 1) rest (by omega) hrest
          constructor
          · rw [← hout]
            simp
            omega
          · intro k hk
            cases k with
            | zero =>
              constructor
              · intro _
                rw [← hout]
                simp only [List.getD_cons_zero]
                rw [Nat.add_zero, hgd]
              · intro htrue
                rw [Nat.add_zero, hgd] at htrue
                rw [htrue] at hs
                exact absurd rfl hs
            | succ k =>
              have hik : i + (k + 1) = (i + 1) + k := by omega
              rw [hik, ← hout]
              simp only [List.getD_cons_succ]
              exact ihk k (by omega)
    · rw [dif_neg h] at hok
      injection hok with hout
      subst hout
      refine ⟨by simp; omega, ?_⟩
      intro k hk
      omega

theorem fulcAux_total (lines : List Line) :
    ∀ fuel i, (∃ out, fulcAux lines fuel i = .ok out) ∨
      fulcAux lines fuel i = .error .attributeError := by
  intro fuel
  induction fuel with
  | zero => intro i; exact .inl ⟨[], rfl⟩
  | succ fuel ih =>
    intro i
    simp only [fulcAux]
    by_cases h : i < lines.length
    · rw [dif_pos h]
      by_cases hs : startsW (chars "@@") (lines.get ⟨i, h⟩)
      · rw [if_pos hs]
        cases hp : parseHunkHeader (lines.get ⟨i, h⟩) with
        | none => exact .inr rfl
        | some sxy =>
          rcases ih (i + 1) with ⟨out, hout⟩ | herr
          · rw [hout]
            exact .inl ⟨_, rfl⟩
          · rw [herr]
            exact .inr rfl
      · rw [if_neg hs]
        rcases ih (i + 1) with ⟨out, hout⟩ | herr
        · rw [hout]
          exact .inl ⟨_, rfl⟩
        · rw [herr]
          exact .inr rfl
    · rw [dif_neg h]
      exact .inl ⟨[], rfl⟩

/-!  ## Claim C10: `adjust_line_indentation` semantics  -/

/-- C10: for a negative offset `-k` the adjustment drops the first `k`
characters of the line unconditionally, yielding `[]` when the line has at most
`k` characters; for a nonnegative offset `k` it prepends exactly `k` spaces. -/
theorem c10_adjust_indentation (l : Line) (k : Nat) :
    (0 < k → adjustLineIndentation l (-(k : Int)) = l.drop k) ∧
    (0 < k → l.length ≤ k → adjustLineIndentation l (-(k : Int)) = []) ∧
    adjustLineIndentation l (k : Int) = List.replicate k ' ' ++ l := by
  refine ⟨fun hk => ?_, fun hk hl => ?_, ?_⟩
  · unfold adjustLineIndentation
    rw [if_neg (by omega), neg_neg]
    simp
  · unfold adjustLineIndentation
    rw [if_neg (by omega), neg_neg]
    simp
    omega
  · unfold adjustLineIndentation
    rw [if_pos (by omega)]
    simp

/-- C10 witness: the three conclusions at concrete lines and offsets. -/
theorem c10_adjust_indentation_witness :
    adjustLineIndentation (chars "abc") (-(2 : Nat) : Int) = (chars "abc").drop 2 ∧
    adjustLineIndentation (chars "ab") (-(3 : Nat) : Int) = [] ∧
    adjustLineIndentation (chars "ab") ((3 : Nat) : Int) = List.replicate 3 ' ' ++ chars "ab" :=
  ⟨(c10_adjust_indentation (chars "abc") 2).1 (by decide),
   (c10_adjust_indentation (chars "ab") 3).2.1 (by decide) (by decide),
   (c10_adjust_indentation (chars "ab") 3).2.2⟩

/-!  ## Claim C9: the filepath existence check  -/

/-- C9: the check succeeds (returning the schema unchanged) exactly when the
path resolves to a blob; an absent path fails with the does-not-exist
description and a non-file entry with the distinct not-a-file description, each
naming the path. -/
theorem c9_filepath_validator {σ : Type} (tree : GitTree) (value : Line) (schema : σ) :
    (validateFilepath tree value schema = .ok schema ↔
      ∃ raw, lookupTree tree value = some (.blob raw)) ∧
    (lookupTree tree value = none →
      validateFilepath tree value schema = .error (pathNotExistMsg value)) ∧
    (lookupTree tree value = some .dir →
      validateFilepath tree value schema = .error (pathNotFileMsg value)) ∧
    pathNotExistMsg value ≠ pathNotFileMsg value := by
  refine ⟨⟨?_, ?_⟩, ?_, ?_, ?_⟩
  · intro hok
    unfold validateFilepath at hok
    cases hl : lookupTree tree value with
    | none =>
      rw [hl] at hok
      exact absurd hok (by simp)
    | some b =>
      rw [hl] at hok
      cases b with
      | blob raw => exact ⟨raw, rfl⟩
      | dir =>
        simp [entryTypeStr, chars] at hok
  · rintro ⟨raw, hl⟩
    unfold validateFilepath
    rw [hl]
    simp [entryTypeStr]
  · intro hl
    unfold validateFilepath
    rw [hl]
  · intro hl
    unfold validateFilepath
    rw [hl]
    simp [entryTypeStr, chars]
  · intro hcon
    have h2 := congrArg List.length hcon
    simp only [pathNotExistMsg, pathNotFileMsg, List.length_append] at h2
    have e1 : (chars "' does not exist in the repo.").length = 29 := rfl
    have e2 : (chars "' is not a file.").length = 16 := rfl
    rw [e1, e2] at h2
    omega

/-- C9 witness: the validator at a file path, an absent path, and a directory. -/
theorem c9_filepath_validator_witness :
    validateFilepath c9Tree (chars "d/f") (0 : Nat) = .ok 0 ∧
    validateFilepath c9Tree (chars "zz") (0 : Nat) = .error (pathNotExistMsg (chars "zz")) ∧
    validateFilepath c9Tree (chars "d") (0 : Nat) = .error (pathNotFileMsg (chars "d")) :=
  ⟨(c9_filepath_validator c9Tree (chars "d/f") 0).1.mpr ⟨chars "hello", by decide⟩,
   (c9_filepath_validator c9Tree (chars "zz") 0).2.1 (by decide),
   (c9_filepath_validator c9Tree (chars "d") 0).2.2.1 (by decide)⟩

/-!  ## Claim C1: the line-count recalculator  -/

/-- C1 counterexample: on the single-hunk input `["@@ -1,1 +1,1 @@", " a", ""]`
the pass leaves the header counts at 1 although the body has two
Removed-or-Context and two Added-or-Context lines (the written counts are the
tallies minus one, not the tallies). -/
theorem c1_counterexample :
    fixUnidiffLineCounts c1In = .ok c1In ∧
    c1In.getD 0 [] = mkHeaderLine 1 1 1 1 ∧
    oldCountOf (hunkBodySlice c1In 0) = 2 ∧
    newCountOf (hunkBodySlice c1In 0) = 2 ∧
    mkHeaderLine 1 1 1 1 ≠ mkHeaderLine 1 2 1 2 := by decide

/-- C1 (amended): for every hunk header of the output, the written `old_count`
is one less than the number of Removed-or-Context body lines (retained
unclassified lines counting as Context, backslash lines as neither), and
`new_count` is one less than the Added-or-Context tally; the starts are kept
and all other lines are copied unchanged. -/
theorem c1_count_recalc (lines out : List Line)
    (hok : fixUnidiffLineCounts lines = .ok out) :
    out.length = lines.length ∧
    ∀ i, i < lines.length →
      (startsW (chars "@@") (lines.getD i []) = false → out.getD i [] = lines.getD i []) ∧
      (startsW (chars "@@") (lines.getD i []) = true →
        ∃ sx sy, parseHunkHeader (lines.getD i []) = some (sx, sy) ∧
          out.getD i [] =
            mkHeaderLine sx ((oldCountOf (hunkBodySlice lines i) : Int) - 1) sy
              ((newCountOf (hunkBodySlice lines i) : Int) - 1)) := by
  obtain ⟨hlen, hk⟩ := fulcAux_spec lines lines.length 0 out (by omega) hok
  constructor
  · omega
  · intro i hi
    have := hk i (by omega)
    simpa using this

/-- C1 witness: the amended statement instantiated on `c1In`, whose single
header is reproduced as `@@ -1,(2-1) +1,(2-1) @@`. -/
theorem c1_count_recalc_witness :
    fixUnidiffLineCounts c1In = .ok c1In ∧
    (∃ sx sy, parseHunkHeader (c1In.getD 0 []) = some (sx, sy) ∧
      c1In.getD 0 [] =
        mkHeaderLine sx ((oldCountOf (hunkBodySlice c1In 0) : Int) - 1) sy
          ((newCountOf (hunkBodySlice c1In 0) : Int) - 1)) :=
  ⟨by decide, ((c1_count_recalc c1In c1In (by decide)).2 0 (by decide)).2 (by decide)⟩

/-!  ## Claim C4: totality of the repair passes  -/

/-- C4 counterexample: on a sequence consisting of one file-header line, both
the hallucination-removal pass and the structural-normalizer rewrites fail with
an out-of-range index (Python `lines[i + 1]`). -/
theorem c4_counterexample :
    removeHallucinations [chars "--- f"] [] = .error .indexError ∧
    structuralNormalizer [] (chars "r") [chars "--- f"] = .error .indexError := by decide

/-- C4 (amended): the line-count recalculator never fails on an out-of-range
index — it either returns a result or raises the header-regex
`AttributeError`; the normalizer rewrites and the hallucination-removal pass
are not total (see the counterexample). -/
theorem c4_line_count_pass_total (lines : List Line) :
    (∃ out, fixUnidiffLineCounts lines = .ok out) ∨
    fixUnidiffLineCounts lines = .error .attributeError :=
  fulcAux_total lines lines.length 0

/-!  ## Claim C2: removed lines in the hallucination pass  -/

/-- C2 counterexample: the removed line `-XYZ` trim-differs from the
authoritative line `real`, yet the pass still emits `-real` for it — the
mismatch does not drop the line. -/
theorem c2_counterexample :
    lstrip (chars "XYZ") ≠ lstrip (chars "real") ∧
    removeHallucinations c2In c2Tree =
      .ok [chars "--- f", chars "+++ f", chars "@@ -1,1 +1,1 @@", chars "-real", chars ""] ∧
    chars "-real" ∈ [chars "--- f", chars "+++ f", chars "@@ -1,1 +1,1 @@", chars "-real",
      chars ""] := by decide

/-- C2 (amended): a removed line processed in non-new-file mode with the cursor
inside the content is replaced by the authoritative file line and the cursor
advances; when the trimmed contents differ the replacement is still emitted —
the mismatch only skips the indentation-offset update. -/
theorem c2_removed_line_replacement (lines : List Line) (tree : GitTree) (i : Nat)
    (st : RHState) (c : List Line) (h : i < lines.length)
    (h1 : startsW (chars "---") (lines.get ⟨i, h⟩) = false)
    (h2 : startsW (chars "@@") (lines.get ⟨i, h⟩) = false)
    (h3 : startsW (chars "+++") (lines.get ⟨i, h⟩) = false)
    (h4 : startsW (chars "-") (lines.get ⟨i, h⟩) = true)
    (h5 : st.isNewFile = false)
    (h6 : st.content = some c)
    (h7 : 0 ≤ st.lineNo) (h8 : st.lineNo < (c.length : Int)) :
    ∃ fl st', pyGet c st.lineNo = .ok fl ∧
      rhStep lines tree i st h = .ok (st', .removedEmit) ∧
      st'.cleaned = st.cleaned ++ ['-' :: fl] ∧
      st'.lineNo = st.lineNo + 1 ∧
      (lstrip ((lines.get ⟨i, h⟩).drop 1) ≠ lstrip fl → st'.indentOffset = st.indentOffset) := by
  have hfl : ∃ fl, pyGet c st.lineNo = .ok fl := by
    unfold pyGet
    rw [if_pos h7]
    have hlt : st.lineNo.toNat < c.length := by omega
    rw [dif_pos hlt]
    exact ⟨_, rfl⟩
  obtain ⟨fl, hfl⟩ := hfl
  simp only [List.get_eq_getElem] at h1 h2 h3 h4 ⊢
  have htc : rhTripleCheck lines i lines[i] = .ok false := by
    unfold rhTripleCheck
    simp [h1]
  refine ⟨fl, ?_⟩
  simp only [rhStep, List.get_eq_getElem, htc]
  simp only [h2, h3, h4, h5, h6, ofContent, Bool.false_eq_true, if_false, if_true,
    ite_false, ite_true]
  rw [if_neg (by omega)]
  simp only [hfl]
  by_cases hls : lstrip (List.drop 1 lines[i]) = lstrip fl
  · by_cases heq : List.drop 1 lines[i] = fl
    · rw [if_neg (not_not_intro hls), if_neg (fun hcon => hcon.1 heq)]
      exact ⟨_, trivial, rfl, rfl, rfl, fun hcon => absurd hls hcon⟩
    · rw [if_neg (not_not_intro hls), if_pos ⟨heq, hls⟩]
      exact ⟨_, trivial, rfl, rfl, rfl, fun hcon => absurd hls hcon⟩
  · rw [if_pos hls]
    exact ⟨_, trivial, rfl, rfl, rfl, fun _ => rfl⟩

/-- C2 witness: the amended statement at the concrete removed line of `c2In`. -/
theorem c2_removed_line_replacement_witness :
    ∃ fl st', pyGet [chars "real"] ((0 : Int)) = .ok fl ∧
      rhStep c2In c2Tree 3 c2State (by decide) = .ok (st', .removedEmit) ∧
      st'.cleaned = c2State.cleaned ++ ['-' :: fl] ∧
      st'.lineNo = c2State.lineNo + 1 ∧
      (lstrip ((c2In.get ⟨3, by decide⟩).drop 1) ≠ lstrip fl → st'.indentOffset =
        c2State.indentOffset) :=
  c2_removed_line_replacement c2In c2Tree 3 c2State [chars "real"] (by decide) (by decide)
    (by decide) (by decide) (by decide) (by decide) rfl (by decide) (by decide)

/-!  ## Branch analysis of the hallucination-removal step  -/

theorem pySetLast_ok (l : List Line) (x : Line) (cl : List Line)
    (hsl : pySetLast l x = .ok cl) : l ≠ [] ∧ cl = l.dropLast ++ [x] := by
  cases l with
  | nil => exact absurd hsl (by simp [pySetLast])
  | cons a as =>
    simp only [pySetLast] at hsl
    injection hsl with h2
    exact ⟨by simp, h2.symm⟩

theorem rhStep_spec (lines : List Line) (tree : GitTree) (i : Nat) (st st' : RHState)
    (tag : RHTag) (h : i < lines.length)
    (hstep : rhStep lines tree i st h = .ok (st', tag)) :
    ((tag = .hunkHeader ∧ startsW (chars "@@") (lines.get ⟨i, h⟩) = true ∧
        st'.semaphore = 2 ∧ st'.cleaned = st.cleaned ++ [lines.get ⟨i, h⟩]) ∨
      (st'.semaphore = st.semaphore - 1 ∧
        (tag = .fileHeader ∨ tag = .ctxSearchHit ∨ st.lineNo ≤ st'.lineNo))) ∧
    (tag = .ctxSearchHit →
      1 ≤ st.semaphore - 1 ∧
      ∃ c p cfl, st.content = some c ∧
        rhSearch c st.lineNo (lines.get ⟨i, h⟩) = .ok (some (p, cfl)) ∧
        st.cleaned ≠ [] ∧
        st'.cleaned = st.cleaned.dropLast ++ [mkAtHeader (p + 1), ' ' :: cfl] ∧
        st'.lineNo = p + 1 ∧ st'.indentOffset = st.indentOffset ∧
        st'.content = st.content ∧ st'.isNewFile = st.isNewFile) := by
  simp only [List.get_eq_getElem]
  simp only [rhStep, List.get_eq_getElem] at hstep
  cases htc : rhTripleCheck lines i lines[i] with
  | error e => simp only [htc] at hstep; exact Except.noConfusion hstep
  | ok b =>
    simp only [htc] at hstep
    cases b with
    | true =>
      cases hpd : parseDashName lines[i] with
      | none => simp only [hpd] at hstep; exact Except.noConfusion hstep
      | some filepath =>
        simp only [hpd] at hstep
        cases hlk : lookupTree tree filepath with
        | none =>
          simp only [hlk] at hstep
          injection hstep with h2
          injection h2 with hst htag
          subst hst; subst htag
          exact ⟨.inr ⟨rfl, .inl rfl⟩, fun hcon => RHTag.noConfusion hcon⟩
        | some ge =>
          cases ge with
          | blob raw =>
            simp only [hlk] at hstep
            injection hstep with h2
            injection h2 with hst htag
            subst hst; subst htag
            exact ⟨.inr ⟨rfl, .inl rfl⟩, fun hcon => RHTag.noConfusion hcon⟩
          | dir => simp only [hlk] at hstep; exact Except.noConfusion hstep
    | false =>
      by_cases hAt : startsW (chars "@@") lines[i]
      · rw [if_pos hAt] at hstep
        cases hph : parseHunkHeader lines[i] with
        | none => simp only [hph] at hstep; exact Except.noConfusion hstep
        | some sxy =>
          simp only [hph] at hstep
          injection hstep with h2
          injection h2 with hst htag
          subst hst; subst htag
          exact ⟨.inl ⟨rfl, hAt, rfl, rfl⟩, fun hcon => RHTag.noConfusion hcon⟩
      · rw [if_neg hAt] at hstep
        by_cases hPl : startsW (chars "+++") lines[i]
        · rw [if_pos hPl] at hstep
          injection hstep with h2
          injection h2 with hst htag
          subst hst; subst htag
          exact ⟨.inr ⟨rfl, .inr (.inr le_rfl)⟩, fun hcon => RHTag.noConfusion hcon⟩
        · rw [if_neg hPl] at hstep
          by_cases hDa : startsW (chars "-") lines[i]
          · rw [if_pos hDa] at hstep
            by_cases hNew : st.isNewFile
            · rw [if_pos hNew] at hstep
              injection hstep with h2
              injection h2 with hst htag
              subst hst; subst htag
              exact ⟨.inr ⟨rfl, .inr (.inr le_rfl)⟩, fun hcon => RHTag.noConfusion hcon⟩
            · rw [if_neg hNew] at hstep
              cases hcont : ofContent st.content with
              | error e => simp only [hcont] at hstep; exact Except.noConfusion hstep
              | ok c =>
                simp only [hcont] at hstep
                by_cases hEof : (c.length : Int) ≤ st.lineNo
                · rw [if_pos hEof] at hstep
                  injection hstep with h2
                  injection h2 with hst htag
                  subst hst; subst htag
                  exact ⟨.inr ⟨rfl, .inr (.inr le_rfl)⟩, fun hcon => RHTag.noConfusion hcon⟩
                · rw [if_neg hEof] at hstep
                  cases hfl : pyGet c st.lineNo with
                  | error e => simp only [hfl] at hstep; exact Except.noConfusion hstep
                  | ok fl =>
                    simp only [hfl] at hstep
                    by_cases hls : lstrip (List.drop 1 lines[i]) ≠ lstrip fl
                    · rw [if_pos hls] at hstep
                      injection hstep with h2
                      injection h2 with hst htag
                      subst hst; subst htag
                      exact ⟨.inr ⟨rfl, .inr (.inr (by simp))⟩,
                        fun hcon => RHTag.noConfusion hcon⟩
                    · rw [if_neg hls] at hstep
                      by_cases hne : List.drop 1 lines[i] ≠ fl ∧
                          lstrip (List.drop 1 lines[i]) = lstrip fl
                      · rw [if_pos hne] at hstep
                        injection hstep with h2
                        injection h2 with hst htag
                        subst hst; subst htag
                        exact ⟨.inr ⟨rfl, .inr (.inr (by simp))⟩,
                          fun hcon => RHTag.noConfusion hcon⟩
                      · rw [if_neg hne] at hstep
                        injection hstep with h2
                        injection h2 with hst htag
                        subst hst; subst htag
                        exact ⟨.inr ⟨rfl, .inr (.inr (by simp))⟩,
                          fun hcon => RHTag.noConfusion hcon⟩
          · rw [if_neg hDa] at hstep
            by_cases hPo : startsW (chars "+") lines[i]
            · rw [if_pos hPo] at hstep
              injection hstep with h2
              injection h2 with hst htag
              subst hst; subst htag
              exact ⟨.inr ⟨rfl, .inr (.inr le_rfl)⟩, fun hcon => RHTag.noConfusion hcon⟩
            · rw [if_neg hPo] at hstep
              by_cases hWs : lstrip lines[i] ≠ lines[i]
              · rw [if_pos hWs] at hstep
                by_cases hNew : st.isNewFile
                · rw [if_pos hNew] at hstep
                  injection hstep with h2
                  injection h2 with hst htag
                  subst hst; subst htag
                  exact ⟨.inr ⟨rfl, .inr (.inr le_rfl)⟩, fun hcon => RHTag.noConfusion hcon⟩
                · rw [if_neg hNew] at hstep
                  cases hcont : ofContent st.content with
                  | error e => simp only [hcont] at hstep; exact Except.noConfusion hstep
                  | ok c =>
                    simp only [hcont] at hstep
                    by_cases hEof : (c.length : Int) ≤ st.lineNo
                    · rw [if_pos hEof] at hstep
                      injection hstep with h2
                      injection h2 with hst htag
                      subst hst; subst htag
                      exact ⟨.inr ⟨rfl, .inr (.inr le_rfl)⟩,
                        fun hcon => RHTag.noConfusion hcon⟩
                    · rw [if_neg hEof] at hstep
                      cases hfl : pyGet c st.lineNo with
                      | error e => simp only [hfl] at hstep; exact Except.noConfusion hstep
                      | ok fl =>
                        simp only [hfl] at hstep
                        by_cases hls : lstrip lines[i] = lstrip fl
                        · rw [if_pos hls] at hstep
                          injection hstep with h2
                          injection h2 with hst htag
                          subst hst; subst htag
                          exact ⟨.inr ⟨rfl, .inr (.inr (by simp))⟩,
                            fun hcon => RHTag.noConfusion hcon⟩
                        · rw [if_neg hls] at hstep
                          by_cases hSem : st.semaphore - 1 ≠ 0
                          · rw [if_pos hSem] at hstep
                            cases hsr : rhSearch c st.lineNo lines[i] with
                            | error e => simp only [hsr] at hstep; exact Except.noConfusion hstep
                            | ok r =>
                              cases r with
                              | none =>
                                simp only [hsr] at hstep
                                injection hstep with h2
                                injection h2 with hst htag
                                subst hst; subst htag
                                exact ⟨.inr ⟨rfl, .inr (.inr le_rfl)⟩,
                                  fun hcon => RHTag.noConfusion hcon⟩
                              | some pc =>
                                obtain ⟨p, cfl⟩ := pc
                                simp only [hsr] at hstep
                                cases hsl : pySetLast st.cleaned (mkAtHeader (p + 1)) with
                                | error e => simp only [hsl] at hstep; exact Except.noConfusion hstep
                                | ok cl =>
                                  simp only [hsl] at hstep
                                  injection hstep with h2
                                  injection h2 with hst htag
                                  subst hst; subst htag
                                  have hceq : st.content = some c := by
                                    cases hco : st.content with
                                    | none =>
                                      rw [hco] at hcont
                                      exact absurd hcont (by simp [ofContent])
                                    | some v =>
                                      rw [hco] at hcont
                                      simp only [ofContent] at hcont
                                      injection hcont with hv
                                      rw [hv]
                                  have hclean := pySetLast_ok st.cleaned (mkAtHeader (p + 1))
                                    cl hsl
                                  refine ⟨.inr ⟨rfl, .inr (.inl rfl)⟩, fun _ => ?_⟩
                                  refine ⟨by omega, c, p, cfl, hceq, hsr, hclean.1, ?_, rfl, rfl,
                                    rfl, rfl⟩
                                  simp [hclean.2]
                          · rw [if_neg hSem] at hstep
                            injection hstep with h2
                            injection h2 with hst htag
                            subst hst; subst htag
                            exact ⟨.inr ⟨rfl, .inr (.inr le_rfl)⟩,
                              fun hcon => RHTag.noConfusion hcon⟩
              · rw [if_neg hWs] at hstep
                injection hstep with h2
                injection h2 with hst htag
                subst hst; subst htag
                exact ⟨.inr ⟨rfl, .inr (.inr (by simp))⟩, fun hcon => RHTag.noConfusion hcon⟩

/-!  ## Digit and header-parsing lemmas  -/

theorem dropPre?_append (pat rest : Line) : dropPre? pat (pat ++ rest) = some rest := by
  induction pat with
  | nil => rfl
  | cons p ps ih => simp [dropPre?, ih]

theorem natCharsAux_digits (fuel m : Nat) :
    ∀ c ∈ natCharsAux fuel m, c.isDigit = true := by
  induction fuel generalizing m with
  | zero => intro c hc; simp [natCharsAux] at hc
  | succ fuel ih =>
    intro c hc
    simp only [natCharsAux] at hc
    by_cases hm : m < 10
    · rw [if_pos hm] at hc
      simp at hc
      subst hc
      interval_cases m <;> decide
    · rw [if_neg hm] at hc
      simp at hc
      rcases hc with hc | hc
      · exact ih (m / 10) c hc
      · subst hc
        have hlt : m % 10 < 10 := Nat.mod_lt m (by omega)
        set r := m % 10 with hr
        interval_cases r <;> decide

theorem natCharsAux_ne_nil (fuel m : Nat) (hm : m < fuel) : natCharsAux fuel m ≠ [] := by
  cases fuel with
  | zero => omega
  | succ fuel =>
    simp only [natCharsAux]
    by_cases h10 : m < 10
    · rw [if_pos h10]
      simp
    · rw [if_neg h10]
      simp

theorem foldl_natCharsAux (fuel : Nat) :
    ∀ m acc, m < fuel →
      List.foldl (fun a c => 10 * a + digitVal c) acc (natCharsAux fuel m) =
        acc * 10 ^ (natCharsAux fuel m).length + m := by
  induction fuel with
  | zero => intro m acc h; omega
  | succ fuel ih =>
    intro m acc h
    simp only [natCharsAux]
    by_cases h10 : m < 10
    · rw [if_pos h10]
      simp only [List.foldl_cons, List.foldl_nil, List.length_singleton]
      have hdv : digitVal (Nat.digitChar m) = m := by interval_cases m <;> decide
      rw [hdv]
      ring
    · rw [if_neg h10]
      have hdiv : m / 10 < fuel := by
        have h1 : m / 10 < m := Nat.div_lt_self (by omega) (by omega)
        omega
      rw [List.foldl_append]
      rw [ih (m / 10) acc hdiv]
      simp only [List.foldl_cons, List.foldl_nil, List.length_append, List.length_singleton]
      have hmod : m % 10 < 10 := Nat.mod_lt m (by omega)
      have hdv : digitVal (Nat.digitChar (m % 10)) = m % 10 := by
        set r := m % 10 with hr
        interval_cases r <;> decide
      rw [hdv]
      have hdm : 10 * (m / 10) + m % 10 = m := Nat.div_add_mod m 10
      rw [pow_succ]
      ring_nf
      omega

theorem digitsVal_natChars (m : Nat) : digitsVal (natChars m) = m := by
  unfold digitsVal natChars
  rw [foldl_natCharsAux (m + 1) m 0 (by omega)]
  simp

theorem takeWhile_digits_append (ds rest : Line) (hds : ∀ c ∈ ds, c.isDigit = true)
    (hrest : ∀ c, rest.head? = some c → c.isDigit = false) :
    (ds ++ rest).takeWhile Char.isDigit = ds ∧ (ds ++ rest).drop ds.length = rest := by
  constructor
  · induction ds with
    | nil =>
      cases rest with
      | nil => rfl
      | cons r rs =>
        simp only [List.nil_append, List.takeWhile]
        rw [hrest r rfl]
    | cons d dd ih =>
      simp only [List.cons_append, List.takeWhile]
      rw [hds d (by simp)]
      simp only [List.cons.injEq, true_and]
      exact ih (fun c hc => hds c (by simp [hc]))
  · exact List.drop_left ds rest

theorem takeDigits_natChars (m : Nat) (rest : Line)
    (hrest : ∀ c, rest.head? = some c → c.isDigit = false) :
    takeDigits (natChars m ++ rest) = some (m, rest) := by
  obtain ⟨htw, hdr⟩ := takeWhile_digits_append (natChars m) rest
    (natCharsAux_digits (m + 1) m) hrest
  unfold takeDigits
  rw [htw]
  rw [if_neg (by simp [List.isEmpty_iff]; exact natCharsAux_ne_nil (m + 1) m (by omega))]
  rw [digitsVal_natChars, hdr]

theorem parse_mkAtHeader (n : Int) (hn : 0 < n) :
    parseHunkHeader (mkAtHeader n) = some (n.toNat, n.toNat) := by
  have hic : intChars n = natChars n.toNat := by
    unfold intChars
    rw [if_neg (by omega)]
  set m := n.toNat with hm
  have hassoc : mkAtHeader n =
      chars "@@ -" ++ (natChars m ++ (chars ",1 +" ++ (natChars m ++ chars ",1 @@"))) := by
    unfold mkAtHeader
    rw [hic]
    simp [List.append_assoc]
  have hr1 : ∀ (Y : Line) (c : Char), (chars ",1 +" ++ Y).head? = some c → c.isDigit = false := by
    intro Y c hc
    have hh : (chars ",1 +" ++ Y).head? = some ',' := rfl
    rw [hh] at hc
    injection hc with hc2
    subst hc2
    decide
  have hr2 : ∀ (c : Char), (chars ",1 @@").head? = some c → c.isDigit = false := by
    intro c hc
    have hh : (chars ",1 @@").head? = some ',' := rfl
    rw [hh] at hc
    injection hc with hc2
    subst hc2
    decide
  have h1 := takeDigits_natChars m (chars ",1 +" ++ (natChars m ++ chars ",1 @@")) (hr1 _)
  have h2 : skipCommaDigits (chars ",1 +" ++ (natChars m ++ chars ",1 @@")) =
      chars " +" ++ (natChars m ++ chars ",1 @@") := rfl
  have h4' : natChars m ++ chars ",1 @@" = natChars m ++ chars ",1 @@" := rfl
  have h4 := takeDigits_natChars m (chars ",1 @@") hr2
  have h5 : skipCommaDigits (chars ",1 @@") = chars " @@" := rfl
  have h6 : dropPre? (chars " @@") (chars " @@") = some [] := rfl
  rw [hassoc]
  unfold parseHunkHeader
  rw [dropPre?_append]
  simp only [Option.pure_def, Option.bind_eq_bind, Option.some_bind, h1, h2, h4, h5, h6,
    dropPre?_append]

theorem rhSearchGo_ok_some (c : List Line) (cur : Int) (line : Line) :
    ∀ offs p cfl, rhSearchGo c cur line offs = .ok (some (p, cfl)) →
      0 ≤ p ∧ p < (c.length : Int) ∧ pyGet c p = .ok cfl ∧ lstrip line = lstrip cfl := by
  intro offs
  induction offs with
  | nil =>
    intro p cfl hh
    simp only [rhSearchGo] at hh
    exact absurd hh (by simp)
  | cons off rest ih =>
    intro p cfl hh
    simp only [rhSearchGo] at hh
    cases hg : pyGet c (cur + off) with
    | error e =>
      simp only [hg] at hh
      exact Except.noConfusion hh
    | ok cfl0 =>
      simp only [hg] at hh
      by_cases hb : ¬(0 ≤ cur + off ∧ cur + off < (c.length : Int))
      · rw [if_pos hb] at hh
        exact ih p cfl hh
      · rw [if_neg hb] at hh
        push_neg at hb
        by_cases hm : lstrip line = lstrip cfl0
        · rw [if_pos hm] at hh
          injection hh with h2
          injection h2 with h3
          injection h3 with h4 h5
          subst h4
          subst h5
          exact ⟨hb.1, hb.2, hg, hm⟩
        · rw [if_neg hm] at hh
          exact ih p cfl hh

theorem rhSearch_ok_some (c : List Line) (cur : Int) (line : Line) (p : Int) (cfl : Line)
    (hh : rhSearch c cur line = .ok (some (p, cfl))) :
    0 ≤ p ∧ p < (c.length : Int) ∧ pyGet c p = .ok cfl ∧ lstrip line = lstrip cfl :=
  rhSearchGo_ok_some c cur line [-3, -2, -1, 0, 1, 2, 3] p cfl hh

/-!  ## The realignment-budget invariant  -/

theorem rh_semaphore_invariant (lines : List Line) (tree : GitTree) :
    ∀ k st, k ≤ lines.length → rhRunPrefix lines tree k = .ok st →
      st.semaphore ≤ 2 ∧
      (2 ≤ st.semaphore → ∃ j, j + 1 = k ∧
        startsW (chars "@@") (lines.getD j []) = true ∧
        st.cleaned.getLast? = some (lines.getD j [])) := by
  intro k
  induction k with
  | zero =>
    intro st _ hrun
    simp only [rhRunPrefix] at hrun
    injection hrun with hst
    subst hst
    exact ⟨by simp [rhInit], fun hcon => by simp [rhInit] at hcon⟩
  | succ k ih =>
    intro st hk hrun
    simp only [rhRunPrefix] at hrun
    cases hprev : rhRunPrefix lines tree k with
    | error e =>
      simp only [hprev] at hrun
      exact Except.noConfusion hrun
    | ok st0 =>
      simp only [hprev] at hrun
      have hklen : k < lines.length := by omega
      rw [dif_pos hklen] at hrun
      cases hstep : rhStep lines tree k st0 hklen with
      | error e =>
        simp only [hstep] at hrun
        exact Except.noConfusion hrun
      | ok pr =>
        obtain ⟨st1, tag⟩ := pr
        simp only [hstep] at hrun
        injection hrun with hst
        subst hst
        obtain ⟨hd, _⟩ := rhStep_spec lines tree k st0 st1 tag hklen hstep
        obtain ⟨ih1, _⟩ := ih st0 (by omega) hprev
        have hgd : lines.getD k [] = lines.get ⟨k, hklen⟩ := by
          rw [List.getD_eq_getElem lines [] hklen]
          simp [List.get_eq_getElem]
        rcases hd with ⟨_, hAt, hsem2, hcleaned⟩ | ⟨hsem, _⟩
        · refine ⟨by omega, fun _ => ⟨k, rfl, ?_, ?_⟩⟩
          · rw [hgd]
            exact hAt
          · rw [hcleaned, hgd]
            exact List.getLast?_concat _
        · exact ⟨by omega, fun h2 => absurd h2 (by omega)⟩

/-!  ## Claim C5: cursor monotonicity and the realignment budget  -/

/-- C5: within a hunk (steps that are neither a file-header triple nor a hunk
header) the cursor never decreases except through the local-search recovery,
and the recovery can trigger only within the first two body lines after a hunk
header: there is an `@@` line at most two positions back. -/
theorem c5_cursor_monotonic_and_budget (lines : List Line) (tree : GitTree) (k : Nat)
    (st st' : RHState) (tag : RHTag) (h : k < lines.length)
    (hrun : rhRunPrefix lines tree k = .ok st)
    (hstep : rhStep lines tree k st h = .ok (st', tag)) :
    (tag ≠ .fileHeader → tag ≠ .hunkHeader → tag ≠ .ctxSearchHit → st.lineNo ≤ st'.lineNo) ∧
    (tag = .ctxSearchHit → ∃ j, j < k ∧ k - j ≤ 2 ∧
      startsW (chars "@@") (lines.getD j []) = true) := by
  obtain ⟨hd, hsearch⟩ := rhStep_spec lines tree k st st' tag h hstep
  constructor
  · intro h1 h2 h3
    rcases hd with ⟨htag, _⟩ | ⟨_, htag | htag | hle⟩
    · exact absurd htag h2
    · exact absurd htag h1
    · exact absurd htag h3
    · exact hle
  · intro htag
    obtain ⟨hsem, _⟩ := hsearch htag
    obtain ⟨hle2, hinv⟩ := rh_semaphore_invariant lines tree k st (by omega) hrun
    obtain ⟨j, hj1, hj2, _⟩ := hinv (by omega)
    exact ⟨j, by omega, by omega, hj2⟩

/-!  ## Claim C6: the bounded local-search recovery  -/

/-- C6: when the bounded search finds a matching file position `p`, the cursor
becomes `p + 1`, the single rewritten output line is the preceding hunk header
of the same hunk (the last emitted line, an `@@` line) whose old and new starts
both parse to `p + 1`, the authoritative file line is emitted as the context
line, and the emitted prefix before that header is untouched. -/
theorem c6_search_recovery (lines : List Line) (tree : GitTree) (k : Nat)
    (st st' : RHState) (c : List Line) (h : k < lines.length)
    (hrun : rhRunPrefix lines tree k = .ok st)
    (hstep : rhStep lines tree k st h = .ok (st', .ctxSearchHit))
    (hc : st.content = some c) :
    ∃ p cfl, rhSearch c st.lineNo (lines.get ⟨k, h⟩) = .ok (some (p, cfl)) ∧
      0 ≤ p ∧ p < (c.length : Int) ∧ pyGet c p = .ok cfl ∧
      lstrip (lines.get ⟨k, h⟩) = lstrip cfl ∧
      st'.lineNo = p + 1 ∧
      st.cleaned ≠ [] ∧
      st.cleaned.getLast? = some (lines.getD (k - 1) []) ∧
      startsW (chars "@@") (lines.getD (k - 1) []) = true ∧
      st'.cleaned = st.cleaned.dropLast ++ [mkAtHeader (p + 1), ' ' :: cfl] ∧
      parseHunkHeader (mkAtHeader (p + 1)) = some ((p + 1).toNat, (p + 1).toNat) := by
  obtain ⟨_, hsearch⟩ := rhStep_spec lines tree k st st' .ctxSearchHit h hstep
  obtain ⟨hsem, c0, p, cfl, hc0, hsr, hne, hclean, hln, _, _, _⟩ := hsearch rfl
  have hcc : c0 = c := by
    rw [hc] at hc0
    injection hc0 with h2
    exact h2.symm
  rw [hcc] at hsr
  obtain ⟨hp0, hplen, hget, hls⟩ := rhSearch_ok_some c st.lineNo (lines.get ⟨k, h⟩) p cfl hsr
  obtain ⟨hle2, hinv⟩ := rh_semaphore_invariant lines tree k st (by omega) hrun
  obtain ⟨j, hj1, hj2, hj3⟩ := hinv (by omega)
  have hjk : j = k - 1 := by omega
  subst hjk
  exact ⟨p, cfl, hsr, hp0, hplen, hget, hls, hln, hne, hj3, hj2, hclean,
    parse_mkAtHeader (p + 1) (by omega)⟩

/-- C5 witness: the search-triggering step of `c6In` happens one line after
the hunk header at index 2. -/
theorem c5_cursor_monotonic_and_budget_witness :
    ∃ j, j < 3 ∧ 3 - j ≤ 2 ∧ startsW (chars "@@") (c6In.getD j []) = true :=
  (c5_cursor_monotonic_and_budget c6In c6Tree 3 c5StBefore c5StAfter .ctxSearchHit (by decide)
    (by decide) (by decide)).2 rfl

/-- C6 witness: the shifted-line-numbers scenario of the spec — the header
claimed start 6, the match is found at position 4, both header starts are
rewritten to 5 and the authoritative `ctx` line is emitted. -/
theorem c6_search_recovery_witness :
    ∃ p cfl, rhSearch c6Content c5StBefore.lineNo (c6In.get ⟨3, by decide⟩) =
        .ok (some (p, cfl)) ∧
      0 ≤ p ∧ p < (c6Content.length : Int) ∧ pyGet c6Content p = .ok cfl ∧
      lstrip (c6In.get ⟨3, by decide⟩) = lstrip cfl ∧
      c5StAfter.lineNo = p + 1 ∧
      c5StBefore.cleaned ≠ [] ∧
      c5StBefore.cleaned.getLast? = some (c6In.getD (3 - 1) []) ∧
      startsW (chars "@@") (c6In.getD (3 - 1) []) = true ∧
      c5StAfter.cleaned = c5StBefore.cleaned.dropLast ++ [mkAtHeader (p + 1), ' ' :: cfl] ∧
      parseHunkHeader (mkAtHeader (p + 1)) = some ((p + 1).toNat, (p + 1).toNat) :=
  c6_search_recovery c6In c6Tree 3 c5StBefore c5StAfter c6Content (by decide) (by decide)
    (by decide) rfl

/-!  ## Claim C7: trailing-newline behaviour of the pipeline  -/

theorem removeHallucinations_last_empty (lines : List Line) (tree : GitTree)
    (out : List Line) (hok : removeHallucinations lines tree = .ok out) :
    out ≠ [] ∧ out.getLast? = some ([] : Line) := by
  unfold removeHallucinations at hok
  cases hrun : rhRunPrefix lines tree lines.length with
  | error e =>
    simp only [hrun] at hok
    exact Except.noConfusion hok
  | ok st =>
    simp only [hrun] at hok
    cases hlast : st.cleaned.getLast? with
    | none =>
      simp only [hlast] at hok
      exact Except.noConfusion hok
    | some last =>
      simp only [hlast] at hok
      injection hok with hout
      by_cases hl : last = ([] : Line)
      · rw [if_pos hl] at hout
        subst hout
        refine ⟨fun hc => ?_, ?_⟩
        · rw [hc] at hlast
          exact Option.noConfusion hlast
        · rw [hlast, hl]
      · rw [if_neg hl] at hout
        subst hout
        exact ⟨by simp, List.getLast?_concat _⟩

theorem fulc_last (r out : List Line) (hok : fixUnidiffLineCounts r = .ok out)
    (hr : r.getLast? = some ([] : Line)) : out.getLast? = some ([] : Line) := by
  obtain ⟨hlen, hk⟩ := fulcAux_spec r r.length 0 out (by omega) hok
  have hne : r ≠ [] := fun hc => by rw [hc] at hr; exact Option.noConfusion hr
  have hlen0 : 0 < r.length := List.length_pos.mpr hne
  have hlen' : out.length = r.length := by omega
  have hrl : r.getD (r.length - 1) [] = ([] : Line) := by
    rw [List.getD_eq_getElem r [] (by omega)]
    rw [List.getLast?_eq_getElem? r,
      List.getElem?_eq_getElem (show r.length - 1 < r.length by omega)] at hr
    exact Option.some.inj hr
  obtain ⟨hcopy, _⟩ := hk (r.length - 1) (by omega)
  rw [Nat.zero_add] at hcopy
  have hzero : startsW (chars "@@") (r.getD (r.length - 1) []) = false := by
    rw [hrl]
    rfl
  have houtd : out.getD (r.length - 1) [] = ([] : Line) := by
    rw [hcopy hzero]
    exact hrl
  rw [List.getLast?_eq_getElem? out, hlen']
  rw [List.getElem?_eq_getElem (show r.length - 1 < out.length by omega)]
  rw [List.getD_eq_getElem out [] (show r.length - 1 < out.length by omega)] at houtd
  rw [houtd]

/-- C7 counterexample: on `c7In` (with an empty tree) the full pipeline output
ends with two empty lines, not exactly one. -/
theorem c7_counterexample :
    unidiffFixLines [] (chars "r") c7In = .ok c7Out ∧
    c7Out.getLast? = some ([] : Line) ∧
    c7Out.dropLast.getLast? = some ([] : Line) := by decide

/-- C7 (amended): whenever the full pipeline returns a result, the result is
non-empty and its last line is empty (the text is newline-terminated) — but not
necessarily with exactly one trailing empty line, and the final forcing
overwrites a non-empty last line instead of appending. -/
theorem c7_trailing_empty (tree : GitTree) (rn : Line) (lines out : List Line)
    (hok : unidiffFixLines tree rn lines = .ok out) :
    out ≠ [] ∧ out.getLast? = some ([] : Line) := by
  unfold unidiffFixLines at hok
  cases hn : structuralNormalizer tree rn lines with
  | error e =>
    simp only [hn] at hok
    exact Except.noConfusion hok
  | ok l =>
    simp only [hn] at hok
    cases hrh : removeHallucinations l tree with
    | error e =>
      simp only [hrh] at hok
      exact Except.noConfusion hok
    | ok r =>
      simp only [hrh] at hok
      obtain ⟨hne, hlast⟩ := removeHallucinations_last_empty l tree r hrh
      have hl2 := fulc_last r out hok hlast
      refine ⟨fun hc => ?_, hl2⟩
      rw [hc] at hl2
      exact Option.noConfusion hl2

/-- C7 witness: the amended statement on the concrete pipeline run of `c7In`. -/
theorem c7_trailing_empty_witness :
    c7Out ≠ [] ∧ c7Out.getLast? = some ([] : Line) :=
  c7_trailing_empty [] (chars "r") c7In c7Out (by decide)

/-!  ## Claim C8: behaviour on already-applying diffs  -/

/-- C8 counterexample.  First half: the cleanly-applying standard two-hunk
diff `c8MultiIn`, whose headers carry the true body line counts and which no
path heuristic touches, is rewritten — rule 9 reinserts a file-header triple
before the lone second hunk header and the recalculator rewrites the first
hunk's counts to the tallies minus one — into a diff that no longer applies.
Second half: the repo-name rewrite (rule 10) turns the cleanly-applying
`c8In` into a diff against a non-existent path with its context line gone. -/
theorem c8_counterexample :
    appliesCleanly c8MultiIn c8MultiTree = true ∧
    unidiffFixLines c8MultiTree (chars "r") c8MultiIn = .ok c8MultiOut ∧
    c8MultiOut ≠ c8MultiIn ∧
    appliesCleanly c8MultiOut c8MultiTree = false ∧
    appliesCleanly c8In c8Tree = true ∧
    unidiffFixLines c8Tree (chars "r") c8In = .ok c8Out ∧
    c8Out ≠ c8In ∧
    appliesCleanly c8Out c8Tree = false := by decide

/-- C8 (amended): the pipeline is not a no-op on cleanly-applying diffs in
general — the counterexample rewrites both a multi-hunk diff with true counts
(no path heuristic involved) and a single-hunk diff under a repo-name
directory.  What does hold is the concrete positive case: on the test suite's
already-correct single-file single-hunk Dockerfile diff (no repo-name
directory in the tree), the pipeline returns its input unchanged. -/
theorem c8_noop_on_correct_diff :
    appliesCleanly correctDockerDiff dockerTree = true ∧
    unidiffFixLines dockerTree (chars "autopr") correctDockerDiff =
      .ok correctDockerDiff := by decide

/-!  ## Claim C3: idempotence of the Structural Normalizer  -/

/-- C3 counterexample: with the repository named `r` and a top-level `r`
directory in the tree, applying the normalizer to its own output duplicates
the repo-name segment again: the second application changes the first
application's output. -/
theorem c3_counterexample :
    structuralNormalizer c3Tree (chars "r") c3In = .ok c3Mid ∧
    structuralNormalizer c3Tree (chars "r") c3Mid = .ok c3Twice ∧
    c3Twice ≠ c3Mid := by decide

theorem pyReplaceAux_nohead (q : Char) (pat' rep : Line) :
    ∀ fuel s, q ∉ s → pyReplaceAux (q :: pat') rep fuel s = s := by
  intro fuel
  induction fuel with
  | zero => intro s _; rfl
  | succ fuel ih =>
    intro s hs
    cases s with
    | nil => rfl
    | cons c cs =>
      simp only [pyReplaceAux]
      have hc : ¬(q = c) := fun hcon => hs (by rw [hcon]; simp)
      rw [show dropPre? (q :: pat') (c :: cs) = none from by simp [dropPre?, hc]]
      rw [ih cs (fun hcon => hs (by simp [hcon]))]

theorem pyReplace_pre (q : Char) (pat' rep s : Line) (hs : q ∉ s) :
    pyReplace ((q :: pat') ++ s) (q :: pat') rep = rep ++ s := by
  unfold pyReplace
  rw [if_neg (by simp)]
  have hlen : ((q :: pat') ++ s).length = (pat'.length + s.length) + 1 := by
    simp
  rw [hlen]
  simp only [List.cons_append, pyReplaceAux,
    show dropPre? (q :: pat') (q :: (pat' ++ s)) = some s from dropPre?_append _ _]
  rw [pyReplaceAux_nohead q pat' rep (pat'.length + s.length) s hs]

/-- C3 (amended): the Structural Normalizer is not idempotent, because the
repo-name path-duplication rewrite (rule 10) has no already-duplicated guard:
for every suffix `p` (free of the `-`/`+` marker characters) and any tree in
which the repository name resolves, rule 10 maps the already-duplicated path
`r/r/p` of a well-formed triple to `r/r/r/p`, so a second run of the
normalizer changes its own output. -/
theorem c3_rule10_reduplication (t : GitTree) (p : Line)
    (hr : ∃ e, lookupTree t (chars "r") = some e) (hp1 : '-' ∉ p) (hp2 : '+' ∉ p) :
    normJ t (chars "r")
      [chars "--- r/r/" ++ p, chars "+++ r/r/" ++ p, chars "@@ -1,1 +1,1 @@", []] =
    .ok [chars "--- r/r/r/" ++ p, chars "+++ r/r/r/" ++ p, chars "@@ -1,1 +1,1 @@", []] := by
  obtain ⟨e, he⟩ := hr
  have hs1 : '-' ∉ chars "r/" ++ p := by
    intro hc
    rcases List.mem_append.mp hc with hc | hc
    · simp [chars] at hc
    · exact hp1 hc
  have hs2 : '+' ∉ chars "r/" ++ p := by
    intro hc
    rcases List.mem_append.mp hc with hc | hc
    · simp [chars] at hc
    · exact hp2 hc
  have hrep0 : pyReplace (chars "--- r/r/" ++ p) (chars "--- r/") (chars "--- r/r/") =
      chars "--- r/r/r/" ++ p :=
    pyReplace_pre '-' (chars "-- r/") (chars "--- r/r/") (chars "r/" ++ p) hs1
  have hrep1 : pyReplace (chars "+++ r/r/" ++ p) (chars "+++ r/") (chars "+++ r/r/") =
      chars "+++ r/r/r/" ++ p :=
    pyReplace_pre '+' (chars "++ r/") (chars "+++ r/r/") (chars "r/" ++ p) hs2
  unfold normJ
  simp only [he]
  have hstep : normJLoop (chars "r")
      [chars "--- r/r/" ++ p, chars "+++ r/r/" ++ p, chars "@@ -1,1 +1,1 @@", []]
      ([chars "--- r/r/" ++ p, chars "+++ r/r/" ++ p,
        chars "@@ -1,1 +1,1 @@", ([] : Line)] : List Line).length 0 =
      normJLoop (chars "r")
        [pyReplace (chars "--- r/r/" ++ p) (chars "--- r/") (chars "--- r/r/"),
         pyReplace (chars "+++ r/r/" ++ p) (chars "+++ r/") (chars "+++ r/r/"),
         chars "@@ -1,1 +1,1 @@", []] 3 1 := rfl
  rw [hstep, hrep0, hrep1]
  rfl

/-- C3 witness: the re-duplication at the concrete suffix `f` and tree
`c3Tree`. -/
theorem c3_rule10_reduplication_witness :
    normJ c3Tree (chars "r")
      [chars "--- r/r/" ++ chars "f", chars "+++ r/r/" ++ chars "f",
       chars "@@ -1,1 +1,1 @@", []] =
    .ok [chars "--- r/r/r/" ++ chars "f", chars "+++ r/r/r/" ++ chars "f",
         chars "@@ -1,1 +1,1 @@", []] :=
  c3_rule10_reduplication c3Tree (chars "f") ⟨.dir, by decide⟩ (by decide) (by decide)
